import Mathlib

/-!
Verification of the PRS (polygenic risk score) extraction-and-scoring core of
the prism-genomics repository.  The Python sources are shallowly embedded:
strings become lists of characters, floats become rationals (with NaN encoded
by `Option`), Python dicts become insertion-ordered association lists, and
exceptions become `Except` values.
-/

deriving instance DecidableEq for Except

namespace Prism

/-- Strings are modelled as lists of characters so that every string
operation is a structurally recursive, kernel-computable function. -/
abbrev Str := List Char

/-- Conversion from a Lean string literal to the character-list model. -/
def str (s : String) : Str := s.data

/-- The whitespace characters stripped by Python's `str.strip()`. -/
def isSpaceChar (c : Char) : Bool :=
  c = ' ' || c = '\t' || c = '\n' || c = '\r' || c = '\x0b' || c = '\x0c'

/-- Python `s.strip()`: remove leading and trailing whitespace. -/
def pystrip (s : Str) : Str :=
  ((s.dropWhile isSpaceChar).reverse.dropWhile isSpaceChar).reverse

/-- Python `s.split(sep)` for a one-character separator: splits at every
occurrence, and the empty string yields `[""]`. -/
def pysplit (sep : Char) : Str → List Str
  | [] => [[]]
  | c :: rest =>
      if c = sep then [] :: pysplit sep rest
      else
        match pysplit sep rest with
        | [] => [[c]]
        | t :: ts => (c :: t) :: ts

/-- Python `s.replace(a, b)` for one-character arguments. -/
def pyreplace (a b : Char) (s : Str) : Str :=
  s.map (fun c => if c = a then b else c)

/-- Python `s.startswith(pre)`. -/
def pyStartsWith : Str → Str → Bool
  | _, [] => true
  | [], _ :: _ => false
  | c :: cs, p :: ps => c = p && pyStartsWith cs ps

/-- Accumulator loop for parsing a run of decimal digits. -/
def digitsToNatAux : Str → ℕ → Option ℕ
  | [], acc => some acc
  | c :: rest, acc =>
      if c.isDigit then digitsToNatAux rest (acc * 10 + (c.toNat - 48)) else none

/-- Parse a nonempty all-digit string to a natural number. -/
def digitsToNat? : Str → Option ℕ
  | [] => none
  | c :: rest => digitsToNatAux (c :: rest) 0

/-- Model of Python `int(s)`: optional surrounding whitespace, an optional
sign, then a nonempty digit run; anything else raises `ValueError`,
modelled as `none`. -/
def pyToInt? (s : Str) : Option ℤ :=
  match pystrip s with
  | '-' :: rest => (digitsToNat? rest).map (fun n => -(n : ℤ))
  | '+' :: rest => (digitsToNat? rest).map (fun n => (n : ℤ))
  | t => (digitsToNat? t).map (fun n => (n : ℤ))

/-!  ## Genotype decoders

`encode_genotype` embeds `src/data_preparation/vcf_processor.py`
(`encode_genotype`): normalise the phased separator, keep only the GT
subfield, and translate the three biallelic genotypes; everything else is
missing (`np.nan`, modelled as `none`).  Dosages are rationals. -/

def encode_genotype (gt_str : Str) : Option ℚ :=
  let gt := (pysplit ':' (pyreplace '|' '/' gt_str)).headD []
  if gt = str "0/0" then some 0
  else if gt = str "0/1" ∨ gt = str "1/0" then some 1
  else if gt = str "1/1" then some 2
  else none

/-- Embeds `_encode_genotype` of `backend/src/data/feature_extractor.py`:
take the GT subfield, split into allele tokens, return `none` when any
token is `"."`, otherwise Python `sum(int(a) > 0 for a in alleles)`
(a `ValueError` in `int` is caught and returns `None`). -/
def encode_genotype_fe (gt_str : Str) : Option ℤ :=
  let gt := (pysplit ':' gt_str).headD []
  let alleles := pysplit '/' (pyreplace '|' '/' gt)
  if str "." ∈ alleles then none
  else (alleles.mapM pyToInt?).map (fun ns => ((ns.filter (fun a => 0 < a)).length : ℤ))

/-- The inline genotype encoder of `RiskInferenceEngine._parse_vcf_bytes`
(`Code/src/api/inference.py` lines 131-138), applied to the already
extracted and `|`-normalised GT subfield. -/
def decodeGt (gt : Str) : Option ℚ :=
  if gt = str "0/0" then some 0
  else if gt = str "0/1" ∨ gt = str "1/0" then some 1
  else if gt = str "1/1" then some 2
  else none

/-!  ## Data model

`SnpW` is one entry of the loaded SNP weight table
(`snp_weights["weights"]` in `Code/src/api/inference.py`). -/

structure SnpW where
  rsid : Str
  pos : ℤ
  beta : ℚ
  trait : Str
deriving DecidableEq

/-- Python-dict lookup on an insertion-ordered association list. -/
def dictLookup {α β : Type} [DecidableEq α] (k : α) : List (α × β) → Option β
  | [] => none
  | (k', v) :: rest => if k' = k then some v else dictLookup k rest

/-- Python-dict insertion: overwrite in place when the key is present,
append at the end when it is fresh (Python 3.7+ dict semantics). -/
def dictInsert {α β : Type} [DecidableEq α] (k : α) (v : β) :
    List (α × β) → List (α × β)
  | [] => [(k, v)]
  | (k', v') :: rest =>
      if k' = k then (k, v) :: rest else (k', v') :: dictInsert k v rest

/-- `RiskInferenceEngine._get_snp_position_map`: fold the weight list into a
position-keyed dict (a duplicated position silently overwrites). -/
def get_snp_position_map (weights : List SnpW) : List (ℤ × SnpW) :=
  weights.foldl (fun m s => dictInsert s.pos s m) []

/-- The `snp_weights_map = {s["rsid"]: s for s in weights}` dict of
`RiskInferenceEngine.analyze_vcf` step 2. -/
def snp_weights_map (weights : List SnpW) : List (Str × SnpW) :=
  weights.foldl (fun m s => dictInsert s.rsid s m) []

/-!  ## The variant stream scanner (`RiskInferenceEngine._parse_vcf_bytes`) -/

/-- The three ways one line of the stream can parse:
`header` (a `##` meta line, the `#CHROM` header, or a line with fewer than
10 tab-delimited fields — silently skipped), `badPos` (at least 10 fields
but `int(fields[1])` raises `ValueError`), or a data line carrying its
position and the extracted, `|`-normalised GT subfield of the first
sample column. -/
inductive LineParse where
  | header
  | badPos
  | pos (p : ℤ) (gt : Str)
deriving DecidableEq

/-- Per-line parsing of `_parse_vcf_bytes`: the header tests happen on the
raw line, the field split on the stripped line, and the genotype is
`fields[9].split(":")[0].replace("|", "/")`. -/
def parseLine (line : Str) : LineParse :=
  if pyStartsWith line (str "##") then .header
  else if pyStartsWith line (str "#CHROM") then .header
  else
    let fields := pysplit '\t' (pystrip line)
    if fields.length < 10 then .header
    else
      match pyToInt? (fields.getD 1 []) with
      | none => .badPos
      | some p => .pos p (pyreplace '|' '/' ((pysplit ':' (fields.getD 9 [])).headD []))

/-- The position of a line, when it parses as a data line. -/
def linePos? (line : Str) : Option ℤ :=
  match parseLine line with
  | .pos p _ => some p
  | _ => none

/-- A line aborts the scan when `int(fields[1])` raises. -/
def lineOk (line : Str) : Prop := parseLine line ≠ .badPos

instance (line : Str) : Decidable (lineOk line) := by
  unfold lineOk; infer_instance

/-- Untyped Python exceptions the embedded code can raise, together with
the spec's `DegeneratePopulationError` (which appears in the spec's error
taxonomy but is produced nowhere in the code). -/
inductive PyError where
  | valueError
  | zeroDivisionError
  | keyError
  | degeneratePopulationError
deriving DecidableEq

/-- Result of one scan: the genotype dict (rsid → dosage, `none` = NaN),
the `total_variants` counter, and the number of stream lines consumed
(the loop reads lines one at a time and `break` stops the iteration). -/
structure ScanResult where
  genotypes : List (Str × Option ℚ)
  totalVariants : ℕ
  linesRead : ℕ
deriving DecidableEq

/-- The scanning loop of `_parse_vcf_bytes`: lines are consumed in order;
a matched position records the decoded genotype under the SNP's rsid,
is discarded from the outstanding set, and the loop breaks as soon as
the outstanding set becomes empty. -/
def scanGo (posMap : List (ℤ × SnpW)) :
    List Str → List ℤ → List (Str × Option ℚ) → ℕ → ℕ → Except PyError ScanResult
  | [], _, gts, tv, lr => .ok ⟨gts, tv, lr⟩
  | l :: rest, out, gts, tv, lr =>
    match parseLine l with
    | .header => scanGo posMap rest out gts tv (lr + 1)
    | .badPos => .error .valueError
    | .pos p gt =>
      if p ∈ out then
        match dictLookup p posMap with
        | none => .error .keyError
        | some info =>
          let gts' := dictInsert info.rsid (decodeGt gt) gts
          let out' := out.filter (fun q => q ≠ p)
          if out' = [] then .ok ⟨gts', tv + 1, lr + 1⟩
          else scanGo posMap rest out' gts' (tv + 1) (lr + 1)
      else scanGo posMap rest out gts (tv + 1) (lr + 1)

/-- The same loop without the early `break` (the full scan the early-exit
optimisation is compared against). -/
def scanFullGo (posMap : List (ℤ × SnpW)) :
    List Str → List ℤ → List (Str × Option ℚ) → ℕ → ℕ → Except PyError ScanResult
  | [], _, gts, tv, lr => .ok ⟨gts, tv, lr⟩
  | l :: rest, out, gts, tv, lr =>
    match parseLine l with
    | .header => scanFullGo posMap rest out gts tv (lr + 1)
    | .badPos => .error .valueError
    | .pos p gt =>
      if p ∈ out then
        match dictLookup p posMap with
        | none => .error .keyError
        | some info =>
          scanFullGo posMap rest (out.filter (fun q => q ≠ p))
            (dictInsert info.rsid (decodeGt gt) gts) (tv + 1) (lr + 1)
      else scanFullGo posMap rest out gts (tv + 1) (lr + 1)

/-- `_parse_vcf_bytes`: scan the whole stream starting from
`target_positions = set(snp_positions.keys())`. -/
def parse_vcf_bytes (posMap : List (ℤ × SnpW)) (lines : List Str) :
    Except PyError ScanResult :=
  scanGo posMap lines ((posMap.map Prod.fst).dedup) [] 0 0

/-- The corresponding full scan. -/
def parse_vcf_bytes_full (posMap : List (ℤ × SnpW)) (lines : List Str) :
    Except PyError ScanResult :=
  scanFullGo posMap lines ((posMap.map Prod.fst).dedup) [] 0 0

/-!  ## The score aggregator (`analyze_vcf` step 2) -/

/-- The PRS accumulation loop of `analyze_vcf` step 2: iterate the
genotype dict in insertion order; NaN dosages are skipped, otherwise the
weight is looked up by rsid (a missing key is a Python `KeyError`) and
`beta * genotype` added to the accumulator. -/
def compute_prs_go (wmap : List (Str × SnpW)) :
    ℚ → List (Str × Option ℚ) → Except PyError ℚ
  | acc, [] => .ok acc
  | acc, p :: rest =>
    match p.2 with
    | none => compute_prs_go wmap acc rest
    | some g =>
      match dictLookup p.1 wmap with
      | none => .error .keyError
      | some s => compute_prs_go wmap (acc + s.beta * g) rest

/-- `prs_raw = Σ β × genotype` over the genotype dict, skipping NaN. -/
def compute_prs_raw (wmap : List (Str × SnpW)) (gts : List (Str × Option ℚ)) :
    Except PyError ℚ :=
  compute_prs_go wmap 0 gts

/-- Outcome of the scoring part of `analyze_vcf`: either the
"no matching GWAS SNPs" error report, or a success report carrying the
genotype dict, the raw PRS and the matched count (`len(genotypes)`). -/
inductive ScoreOutcome where
  | noMatchingVariants
  | report (genotypes : List (Str × Option ℚ)) (rawScore : ℚ) (matchedCount : ℕ)
deriving DecidableEq

/-- Steps 1-2 of `RiskInferenceEngine.analyze_vcf` — the spec's
`score_individual` operation: parse the stream, signal the
no-matching-variants condition on an empty genotype dict, otherwise
aggregate the weighted sum. -/
def score_individual (weights : List SnpW) (lines : List Str) :
    Except PyError ScoreOutcome := do
  let posMap := get_snp_position_map weights
  let scan ← scanGo posMap lines ((posMap.map Prod.fst).dedup) [] 0 0
  if scan.genotypes = [] then
    return ScoreOutcome.noMatchingVariants
  else
    let raw ← compute_prs_raw (snp_weights_map weights) scan.genotypes
    return ScoreOutcome.report scan.genotypes raw scan.genotypes.length

/-!  ## The population normalizer (`analyze_vcf` steps 3-4) -/

inductive RiskTier where
  | low
  | moderate
  | high
deriving DecidableEq

structure NormalizedReport where
  z : ℚ
  percentile : ℚ
  tier : RiskTier
deriving DecidableEq

/-- Steps 3-4 of `RiskInferenceEngine.analyze_vcf`: the z-score
`(prs_raw - mean) / std` (Python raises `ZeroDivisionError` when the
stored `std_prs` is zero — there is no guard in the code), the percentile
`Φ(z) × 100`, and the risk category by the `< 40` / `< 75` cut points.
`Φ` abstracts `scipy.stats.norm.cdf`, the standard normal CDF. -/
def tierOf (p : ℚ) : RiskTier :=
  if p < 40 then .low else if p < 75 then .moderate else .high

def normalizeScore (Φ : ℚ → ℚ) (raw mean std : ℚ) : Except PyError NormalizedReport :=
  if std = 0 then .error .zeroDivisionError
  else
    let z := (raw - mean) / std
    let p := Φ z * 100
    .ok ⟨z, p, tierOf p⟩

/-!  ## The inference assembler -/

/-- Step 5 of `RiskInferenceEngine.analyze_vcf`: walk the model's own
feature-name list in order; the `"prs_raw"` element receives the raw
score, every other name receives the observed dosage when present and
non-NaN, else 0.0. -/
def assemble_features (featureNames : List Str) (gts : List (Str × Option ℚ))
    (prsRaw : ℚ) : List ℚ :=
  featureNames.map (fun fname =>
    if fname = str "prs_raw" then prsRaw
    else
      match dictLookup fname gts with
      | some (some g) => g
      | some none => 0
      | none => 0)

/-- One entry of `snp_metadata["snps"]` in
`backend/src/api/inference.py` (`index` is the training column). -/
structure SnpMeta where
  index : ℕ
  pos : ℤ
  rsid : Str
  popMean : Option ℚ
deriving DecidableEq

/-- The `input_vector` prefill loop of `InferenceEngine.analyze_vcf`:
start from `np.zeros(n)` and write `snp.get("pop_mean", 0.0)` at each
SNP's column. -/
def prefillVector (snps : List SnpMeta) (n : ℕ) : List ℚ :=
  snps.foldl (fun v s => v.set s.index (s.popMean.getD 0)) (List.replicate n 0)

/-- The override loop: for each SNP whose position was matched in the
upload, overwrite the column with the observed alt-allele count. -/
def overrideVector (snps : List SnpMeta) (genotypes : List (ℤ × ℤ)) (v : List ℚ) :
    List ℚ :=
  snps.foldl (fun v s =>
    match dictLookup s.pos genotypes with
    | some a => v.set s.index (a : ℚ)
    | none => v) v

/-- The feature-vector assembly of `InferenceEngine.analyze_vcf`
(backend): prefill with population means, then override matched
positions with the patient's genotypes. -/
def build_input_vector (snps : List SnpMeta) (n : ℕ) (genotypes : List (ℤ × ℤ)) :
    List ℚ :=
  overrideVector snps genotypes (prefillVector snps n)

/-!  ## The label simulator (`Code/src/ml/label_simulator.py`)

`np.random.default_rng(seed)` is a deterministic generator: the seed
fully determines the stream of draws.  It is modelled as a pair of
streams — the i-th standard-normal draw consumed by
`rng.standard_normal(n)` and the i-th uniform draw consumed by
`rng.binomial(1, p)` (a Bernoulli draw is 1 exactly when the uniform
falls below `p`).  Two runs with the same seed receive the same `Rng`.
The transcendental functions `sqrt`, `log` and `expit` are abstracted
as rational-valued parameters. -/

structure Rng where
  gauss : ℕ → ℚ
  unif : ℕ → ℚ

structure LiabilityLabel where
  liability : ℚ
  prob : ℚ
  label : ℕ
deriving DecidableEq

/-- `simulate_disease_labels` on the `z_score` column:
`liability_i = sqrt(h²) × z_i + sqrt(1 - h²) × ε_i`,
`disease_prob_i = expit(liability_i + log(prev / (1 - prev)))`,
`label_i = Bernoulli(disease_prob_i)` from the same seeded generator. -/
def simulate_disease_labels (sqrtQ logQ expitQ : ℚ → ℚ) (rng : Rng)
    (zScores : List ℚ) (her prevalence : ℚ) : List LiabilityLabel :=
  let offset := logQ (prevalence / (1 - prevalence))
  (List.range zScores.length).map (fun i =>
    let liab := sqrtQ her * zScores.getD i 0 + sqrtQ (1 - her) * rng.gauss i
    let p := expitQ (liab + offset)
    ⟨liab, p, if rng.unif i < p then 1 else 0⟩)

/-- "Identical ScoreReport" in the order-independence claim: Python dict
equality ignores insertion order, so the genotype dicts must agree as
permutations of each other (their keys are unique), and raw score and
matched count must be equal. -/
def outcomeEquiv : ScoreOutcome → ScoreOutcome → Prop
  | .noMatchingVariants, .noMatchingVariants => True
  | .report g₁ r₁ c₁, .report g₂ r₂ c₂ => g₁.Perm g₂ ∧ r₁ = r₂ ∧ c₁ = c₂
  | _, _ => False

/-!  ## Dictionary lemmas -/

theorem dictLookup_dictInsert_self {α β : Type} [DecidableEq α] (k : α) (v : β)
    (m : List (α × β)) : dictLookup k (dictInsert k v m) = some v := by
  induction m with
  | nil => simp [dictInsert, dictLookup]
  | cons p rest ih =>
      obtain ⟨k', v'⟩ := p
      by_cases h : k' = k
      · subst h
        simp [dictInsert, dictLookup]
      · simp [dictInsert, dictLookup, h, ih]

theorem dictLookup_dictInsert_ne {α β : Type} [DecidableEq α] {k k' : α} (v : β)
    (m : List (α × β)) (h : k' ≠ k) :
    dictLookup k' (dictInsert k v m) = dictLookup k' m := by
  induction m with
  | nil => simp [dictInsert, dictLookup, Ne.symm h]
  | cons p rest ih =>
      obtain ⟨k₀, v₀⟩ := p
      by_cases h₀ : k₀ = k
      · subst h₀
        simp [dictInsert, dictLookup, Ne.symm h]
      · simp only [dictInsert, if_neg h₀, dictLookup]
        by_cases h₁ : k₀ = k'
        · simp [h₁]
        · simp [h₁, ih]

theorem dictInsert_fresh {α β : Type} [DecidableEq α] (k : α) (v : β)
    (m : List (α × β)) (h : dictLookup k m = none) :
    dictInsert k v m = m ++ [(k, v)] := by
  induction m with
  | nil => simp [dictInsert]
  | cons p rest ih =>
      obtain ⟨k₀, v₀⟩ := p
      by_cases h₀ : k₀ = k
      · subst h₀
        simp [dictLookup] at h
      · simp only [dictLookup, if_neg h₀] at h
        simp [dictInsert, h₀, ih h]

theorem dictLookup_isSome_iff {α β : Type} [DecidableEq α] (k : α)
    (m : List (α × β)) : (dictLookup k m).isSome ↔ k ∈ m.map Prod.fst := by
  induction m with
  | nil => simp [dictLookup]
  | cons p rest ih =>
      obtain ⟨k₀, v₀⟩ := p
      by_cases h₀ : k₀ = k
      · subst h₀
        simp [dictLookup]
      · simp [dictLookup, h₀, ih, Ne.symm h₀]

theorem dictLookup_append_single {α β : Type} [DecidableEq α] (k k₀ : α) (v₀ : β)
    (m : List (α × β)) :
    dictLookup k (m ++ [(k₀, v₀)]) =
      (dictLookup k m).orElse (fun _ => if k₀ = k then some v₀ else none) := by
  induction m with
  | nil => simp [dictLookup]
  | cons p rest ih =>
      obtain ⟨k₁, v₁⟩ := p
      by_cases h : k₁ = k
      · simp [dictLookup, h]
      · simp [dictLookup, h, ih]

/-- Folding `dictInsert` over a list whose keys are fresh and mutually
distinct appends the corresponding entries in order. -/
theorem foldl_dictInsert_eq_append {α β : Type} [DecidableEq α] (f : β → α) :
    ∀ (l : List β) (m : List (α × β)),
      (∀ s ∈ l, dictLookup (f s) m = none) →
      (l.map f).Nodup →
      l.foldl (fun m s => dictInsert (f s) s m) m = m ++ l.map (fun s => (f s, s))
  | [], m, _, _ => by simp
  | s₀ :: rest, m, hfresh, hnd => by
      have h₀ : dictLookup (f s₀) m = none := hfresh s₀ (by simp)
      have hrest : ∀ s ∈ rest, dictLookup (f s) (m ++ [(f s₀, s₀)]) = none := by
        intro s hs
        rw [dictLookup_append_single]
        have h₁ : dictLookup (f s) m = none := hfresh s (by simp [hs])
        have h₂ : f s₀ ≠ f s := by
          intro hEq
          simp only [List.map_cons, List.nodup_cons] at hnd
          exact hnd.1 (hEq ▸ List.mem_map_of_mem f hs)
        simp [h₁, h₂]
      have hnd' : (rest.map f).Nodup := by
        simp only [List.map_cons, List.nodup_cons] at hnd
        exact hnd.2
      simp only [List.foldl_cons]
      rw [dictInsert_fresh _ _ _ h₀,
        foldl_dictInsert_eq_append f rest (m ++ [(f s₀, s₀)]) hrest hnd']
      simp

/-- With distinct positions, `_get_snp_position_map` is just the weight
list keyed by position. -/
theorem get_snp_position_map_eq (weights : List SnpW)
    (hnd : (weights.map SnpW.pos).Nodup) :
    get_snp_position_map weights = weights.map (fun s => (s.pos, s)) := by
  unfold get_snp_position_map
  rw [foldl_dictInsert_eq_append SnpW.pos weights [] (by intro s _; rfl) hnd]
  simp

/-- With distinct rsids, the rsid-keyed weight dict is the weight list
keyed by rsid. -/
theorem snp_weights_map_eq (weights : List SnpW)
    (hnd : (weights.map SnpW.rsid).Nodup) :
    snp_weights_map weights = weights.map (fun s => (s.rsid, s)) := by
  unfold snp_weights_map
  rw [foldl_dictInsert_eq_append SnpW.rsid weights [] (by intro s _; rfl) hnd]
  simp

/-- Lookup in a map-built association list with distinct keys returns the
unique element with that key. -/
theorem dictLookup_map_self {α β : Type} [DecidableEq α] (f : β → α) :
    ∀ (l : List β) (s : β), (l.map f).Nodup → s ∈ l →
      dictLookup (f s) (l.map (fun t => (f t, t))) = some s
  | [], s, _, hs => by cases hs
  | t :: rest, s, hnd, hs => by
      simp only [List.map_cons, List.nodup_cons] at hnd
      rcases List.mem_cons.1 hs with h | h
      · subst h
        simp [dictLookup]
      · have hne : f t ≠ f s := by
          intro hEq
          exact hnd.1 (hEq ▸ List.mem_map_of_mem f h)
        simp only [List.map_cons, dictLookup, if_neg hne]
        exact dictLookup_map_self f rest s hnd.2 h

/-!  ## Score aggregation: spec-side formula and equivalence -/

/-- The spec's contract for the raw score, written from its words:
"`raw_score = Σ weight_i × dosage_i` over every SNP with a non-missing
dosage; SNPs with missing dosage are excluded from the sum". -/
def specRawScore (wmap : List (Str × SnpW)) (gts : List (Str × Option ℚ)) : ℚ :=
  (gts.filterMap (fun p =>
    p.2.bind (fun g => (dictLookup p.1 wmap).map (fun s => s.beta * g)))).sum

theorem compute_prs_go_eq (wmap : List (Str × SnpW)) :
    ∀ (gts : List (Str × Option ℚ)) (acc : ℚ),
      (∀ p ∈ gts, p.2 ≠ none → (dictLookup p.1 wmap).isSome) →
      compute_prs_go wmap acc gts = .ok (acc + specRawScore wmap gts)
  | [], acc, _ => by
      simp [compute_prs_go, specRawScore]
  | ⟨k, d⟩ :: rest, acc, hcov => by
      have hrest : ∀ q ∈ rest, q.2 ≠ none → (dictLookup q.1 wmap).isSome := by
        intro q hq
        exact hcov q (by simp [hq])
      cases d with
      | none =>
          rw [show compute_prs_go wmap acc ((⟨k, none⟩ : Str × Option ℚ) :: rest) =
              compute_prs_go wmap acc rest from rfl,
            compute_prs_go_eq wmap rest acc hrest]
          simp [specRawScore]
      | some g =>
          have hsome : (dictLookup k wmap).isSome :=
            hcov ⟨k, some g⟩ (by simp) (by simp)
          obtain ⟨s, hs⟩ := Option.isSome_iff_exists.1 hsome
          have hstep : compute_prs_go wmap acc ((⟨k, some g⟩ : Str × Option ℚ) :: rest) =
              compute_prs_go wmap (acc + s.beta * g) rest := by
            rw [show compute_prs_go wmap acc ((⟨k, some g⟩ : Str × Option ℚ) :: rest) =
              (match dictLookup k wmap with
               | none => Except.error PyError.keyError
               | some s => compute_prs_go wmap (acc + s.beta * g) rest) from rfl,
              hs]
          rw [hstep, compute_prs_go_eq wmap rest (acc + s.beta * g) hrest]
          simp only [specRawScore, List.filterMap_cons, Option.some_bind, hs]
          dsimp only [Option.map]
          rw [List.sum_cons, add_assoc]

theorem compute_prs_raw_spec_aux (wmap : List (Str × SnpW))
    (gts : List (Str × Option ℚ))
    (hcov : ∀ p ∈ gts, p.2 ≠ none → (dictLookup p.1 wmap).isSome) :
    compute_prs_raw wmap gts = .ok (specRawScore wmap gts) := by
  unfold compute_prs_raw
  rw [compute_prs_go_eq wmap gts 0 hcov, zero_add]

/-- C1.  The raw score computed by the aggregation loop of
`analyze_vcf` equals the spec's sum over exactly the SNPs with a
non-missing dosage of `weight × dosage`; missing dosages contribute
nothing.  The hypothesis — every rsid carrying a non-missing dosage is
present in the weight dict — always holds for dicts produced by
`_parse_vcf_bytes`, whose keys come from the weight table itself. -/
theorem compute_prs_raw_eq_spec (wmap : List (Str × SnpW))
    (gts : List (Str × Option ℚ))
    (hcov : ∀ p ∈ gts, p.2 ≠ none → (dictLookup p.1 wmap).isSome) :
    compute_prs_raw wmap gts = .ok (specRawScore wmap gts) :=
  compute_prs_raw_spec_aux wmap gts hcov

/-- The SNP table of the spec's concrete scenario:
positions 100 ↦ (rsA, 0.5) and 200 ↦ (rsB, −0.3). -/
def snpA : SnpW := ⟨str "rsA", 100, 1/2, str "T2D"⟩

def snpB : SnpW := ⟨str "rsB", 200, -3/10, str "T2D"⟩

/-- Witness for C1, on the spec's concrete scenario: the genotype dict
{rsA ↦ 1, rsB ↦ 2} scores to 0.5 × 1 + (−0.3) × 2 = −0.1. -/
theorem compute_prs_raw_eq_spec_witness :
    (∀ p ∈ [(str "rsA", some (1 : ℚ)), (str "rsB", some 2)], p.2 ≠ none →
      (dictLookup p.1 [(str "rsA", snpA), (str "rsB", snpB)]).isSome) ∧
    compute_prs_raw [(str "rsA", snpA), (str "rsB", snpB)]
        [(str "rsA", some 1), (str "rsB", some 2)] =
      .ok (specRawScore [(str "rsA", snpA), (str "rsB", snpB)]
        [(str "rsA", some 1), (str "rsB", some 2)]) ∧
    compute_prs_raw [(str "rsA", snpA), (str "rsB", snpB)]
        [(str "rsA", some 1), (str "rsB", some 2)] = .ok (-1/10) :=
  ⟨by decide, compute_prs_raw_eq_spec _ _ (by decide), by with_unfolding_all decide⟩

/-!  ## Normalizer claims -/

/-- C2.  For `std ≠ 0` the normalizer returns
`z = (raw − mean) / std`, `percentile = Φ(z) × 100`, and assigns the
risk tier by the fixed percentile cut points: `< 40` Low, `[40, 75)`
Moderate, `≥ 75` High. -/
theorem normalize_contract (Φ : ℚ → ℚ) (raw mean std : ℚ) (h : std ≠ 0) :
    normalizeScore Φ raw mean std =
      .ok ⟨(raw - mean) / std, Φ ((raw - mean) / std) * 100,
        tierOf (Φ ((raw - mean) / std) * 100)⟩ ∧
    ∀ p : ℚ, (p < 40 → tierOf p = .low) ∧
      (40 ≤ p → p < 75 → tierOf p = .moderate) ∧
      (75 ≤ p → tierOf p = .high) := by
  constructor
  · simp [normalizeScore, h]
  · intro p
    refine ⟨?_, ?_, ?_⟩
    · intro h1
      unfold tierOf
      rw [if_pos h1]
    · intro h1 h2
      unfold tierOf
      rw [if_neg (not_lt.mpr h1), if_pos h2]
    · intro h1
      unfold tierOf
      rw [if_neg (by linarith), if_neg (not_lt.mpr h1)]

/-- Witness for C2, on the spec's concrete scenario: with a CDF sending 0
to 1/2, mean 0, std 1 and raw score 0 give z = 0, percentile = 50 and
tier Moderate. -/
theorem normalize_contract_witness :
    (normalizeScore (fun _ => (1 : ℚ)/2) 0 0 1 =
      .ok ⟨((0 : ℚ) - 0) / 1, (fun _ => (1 : ℚ)/2) (((0 : ℚ) - 0) / 1) * 100,
        tierOf ((fun _ => (1 : ℚ)/2) (((0 : ℚ) - 0) / 1) * 100)⟩ ∧
      ∀ p : ℚ, (p < 40 → tierOf p = .low) ∧
        (40 ≤ p → p < 75 → tierOf p = .moderate) ∧
        (75 ≤ p → tierOf p = .high)) ∧
    normalizeScore (fun _ => (1 : ℚ)/2) 0 0 1 = .ok ⟨0, 50, .moderate⟩ :=
  ⟨normalize_contract (fun _ => (1 : ℚ)/2) 0 0 1 one_ne_zero,
   by with_unfolding_all decide⟩

/-- Counterexample for C6.  With std = 0 the code raises Python's
builtin `ZeroDivisionError` — not the spec's typed
`DegeneratePopulationError`, which no code path ever produces. -/
theorem normalize_zero_counterexample :
    normalizeScore (fun z => z) 0 0 0 = .error .zeroDivisionError ∧
    (Except.error .zeroDivisionError :
      Except PyError NormalizedReport) ≠ .error .degeneratePopulationError := by
  constructor
  · rfl
  · decide

/-- C6 (amended).  The normalizer's failing branch is taken exactly when
`std = 0`, and the failure is the untyped `ZeroDivisionError`; for
`std ≠ 0` the division is well-defined and a report is produced. -/
theorem normalize_std_zero (Φ : ℚ → ℚ) (raw mean std : ℚ) :
    (normalizeScore Φ raw mean std = .error .zeroDivisionError ↔ std = 0) ∧
    (std ≠ 0 → ∃ r, normalizeScore Φ raw mean std = .ok r ∧
      r.z = (raw - mean) / std) := by
  constructor
  · constructor
    · intro h
      by_contra hstd
      simp [normalizeScore, hstd] at h
    · intro h
      simp [normalizeScore, h]
  · intro h
    refine ⟨⟨(raw - mean) / std, Φ ((raw - mean) / std) * 100,
      tierOf (Φ ((raw - mean) / std) * 100)⟩, ?_, rfl⟩
    simp [normalizeScore, h]

/-- Witness for C6: at std = 0 the error is raised, at std = 1 the
division succeeds. -/
theorem normalize_std_zero_witness :
    normalizeScore (fun z => z) 2 1 0 = .error .zeroDivisionError ∧
    (∃ r, normalizeScore (fun z => z) 2 1 1 = .ok r ∧
      r.z = ((2 : ℚ) - 1) / 1) :=
  ⟨(normalize_std_zero (fun z => z) 2 1 0).1.mpr rfl,
   (normalize_std_zero (fun z => z) 2 1 1).2 one_ne_zero⟩

/-!  ## Decoder claims (C4) -/

/-- Counterexample for C4.  The feature-extractor decoder does not send
multi-allelic indices to missing: `"0/2"` decodes to dosage 1, and a
triploid `"1/1/1"` decodes to 3, outside {0, 1, 2, missing}. -/
theorem decoder_multiallelic_counterexample :
    encode_genotype_fe (str "0/2") = some 1 ∧
    encode_genotype_fe (str "0/2") ≠ none ∧
    encode_genotype_fe (str "1/1/1") = some 3 := by decide

/-- C4 (amended).  The `vcf_processor` decoder `encode_genotype` is total
with range {0, 1, 2, missing} and satisfies the full decoding table
(multi-allelic and non-numeric tokens are missing); the feature-extractor
variant `encode_genotype_fe` agrees on the biallelic table, on `"./."`,
`"."` and non-numeric tokens, but counts positive allele indices when all
tokens parse, so `"0/2"` gives 1, `"2/2"` gives 2 and `"1/1/1"` gives 3. -/
theorem genotype_decoder_contract :
    (∀ s : Str, encode_genotype s = some 0 ∨ encode_genotype s = some 1 ∨
      encode_genotype s = some 2 ∨ encode_genotype s = none) ∧
    (encode_genotype (str "0/0") = some 0 ∧ encode_genotype (str "0|0") = some 0 ∧
     encode_genotype (str "0/1") = some 1 ∧ encode_genotype (str "1/0") = some 1 ∧
     encode_genotype (str "0|1") = some 1 ∧ encode_genotype (str "1|0") = some 1 ∧
     encode_genotype (str "1/1") = some 2 ∧ encode_genotype (str "1|1") = some 2) ∧
    (encode_genotype (str "./.") = none ∧ encode_genotype (str ".") = none ∧
     encode_genotype (str "A/B") = none ∧ encode_genotype (str "0/2") = none ∧
     encode_genotype (str "1/2") = none ∧ encode_genotype (str "") = none) ∧
    (encode_genotype_fe (str "0/0") = some 0 ∧ encode_genotype_fe (str "0|0") = some 0 ∧
     encode_genotype_fe (str "0/1") = some 1 ∧ encode_genotype_fe (str "1/0") = some 1 ∧
     encode_genotype_fe (str "0|1") = some 1 ∧ encode_genotype_fe (str "1|0") = some 1 ∧
     encode_genotype_fe (str "1/1") = some 2 ∧ encode_genotype_fe (str "1|1") = some 2 ∧
     encode_genotype_fe (str "./.") = none ∧ encode_genotype_fe (str ".") = none ∧
     encode_genotype_fe (str "A/B") = none) ∧
    (encode_genotype_fe (str "0/2") = some 1 ∧ encode_genotype_fe (str "2/2") = some 2 ∧
     encode_genotype_fe (str "1/1/1") = some 3) := by
  refine ⟨?_, by decide, by decide, by decide, by decide⟩
  intro s
  simp only [encode_genotype]
  split_ifs <;> tauto

/-!  ## Malformed-line claims (C5) -/

/-- Counterexample for C5.  A data line with at least 10 tab-delimited
fields and a non-numeric position field is not skipped: `int(fields[1])`
raises an untyped `ValueError` that aborts the whole scan.  (A short
line, by contrast, is skipped — and not counted: `total_variants` stays
0.) -/
theorem scan_malformed_counterexample :
    parse_vcf_bytes [(100, snpA)] [str "1\t50"] = .ok ⟨[], 0, 1⟩ ∧
    parse_vcf_bytes [(100, snpA)] [str "1\tABC\t.\t.\t.\t.\t.\t.\t.\t0/1"] =
      .error .valueError := by decide

/-- C5 (amended).  A non-header line with fewer than 10 tab-delimited
fields is skipped — without incrementing the variant counter — and the
scan continues with the next line; but a line with at least 10 fields
whose position field is non-numeric aborts the scan with the untyped
`ValueError` of `int(fields[1])`. -/
theorem scan_malformed_lines (posMap : List (ℤ × SnpW)) (out : List ℤ)
    (gts : List (Str × Option ℚ)) (tv lr : ℕ) (line : Str) (rest : List Str)
    (hh : pyStartsWith line (str "##") = false)
    (hc : pyStartsWith line (str "#CHROM") = false) :
    ((pysplit '\t' (pystrip line)).length < 10 →
      scanGo posMap (line :: rest) out gts tv lr =
        scanGo posMap rest out gts tv (lr + 1)) ∧
    (10 ≤ (pysplit '\t' (pystrip line)).length →
      pyToInt? ((pysplit '\t' (pystrip line)).getD 1 []) = none →
      scanGo posMap (line :: rest) out gts tv lr = .error .valueError) := by
  constructor
  · intro hlen
    have hp : parseLine line = .header := by
      simp [parseLine, hh, hc, hlen]
    simp [scanGo, hp]
  · intro hlen hbad
    have hbad' : pyToInt? ((pysplit '\t' (pystrip line))[1]?.getD []) = none := by
      simpa [List.getD] using hbad
    have hp : parseLine line = .badPos := by
      simp [parseLine, hh, hc, Nat.not_lt.mpr hlen, hbad']
    simp [scanGo, hp]

/-- Witness for C5's amended statement, at a 2-field line and a 10-field
line with position field `"ABC"`. -/
theorem scan_malformed_lines_witness :
    (scanGo [(100, snpA)] [str "1\t50"] [100] [] 0 0 =
      scanGo [(100, snpA)] [] [100] [] 0 1) ∧
    (scanGo [(100, snpA)] [str "1\tABC\t.\t.\t.\t.\t.\t.\t.\t0/1"] [100] [] 0 0 =
      .error .valueError) :=
  ⟨(scan_malformed_lines [(100, snpA)] [100] [] 0 0 (str "1\t50") []
      (by decide) (by decide)).1 (by decide),
   (scan_malformed_lines [(100, snpA)] [100] [] 0 0
      (str "1\tABC\t.\t.\t.\t.\t.\t.\t.\t0/1") []
      (by decide) (by decide)).2 (by decide) (by decide)⟩

/-!  ## Scanner step lemmas -/

theorem scanGo_cons (posMap : List (ℤ × SnpW)) (l : Str) (rest : List Str)
    (out : List ℤ) (gts : List (Str × Option ℚ)) (tv lr : ℕ) :
    scanGo posMap (l :: rest) out gts tv lr =
      (match parseLine l with
       | .header => scanGo posMap rest out gts tv (lr + 1)
       | .badPos => .error .valueError
       | .pos p gt =>
         if p ∈ out then
           match dictLookup p posMap with
           | none => .error .keyError
           | some info =>
             let gts' := dictInsert info.rsid (decodeGt gt) gts
             let out' := out.filter (fun q => q ≠ p)
             if out' = [] then .ok ⟨gts', tv + 1, lr + 1⟩
             else scanGo posMap rest out' gts' (tv + 1) (lr + 1)
         else scanGo posMap rest out gts (tv + 1) (lr + 1)) := rfl

theorem scanFullGo_cons (posMap : List (ℤ × SnpW)) (l : Str) (rest : List Str)
    (out : List ℤ) (gts : List (Str × Option ℚ)) (tv lr : ℕ) :
    scanFullGo posMap (l :: rest) out gts tv lr =
      (match parseLine l with
       | .header => scanFullGo posMap rest out gts tv (lr + 1)
       | .badPos => .error .valueError
       | .pos p gt =>
         if p ∈ out then
           match dictLookup p posMap with
           | none => .error .keyError
           | some info =>
             scanFullGo posMap rest (out.filter (fun q => q ≠ p))
               (dictInsert info.rsid (decodeGt gt) gts) (tv + 1) (lr + 1)
         else scanFullGo posMap rest out gts (tv + 1) (lr + 1)) := rfl

theorem scanGo_nil (posMap : List (ℤ × SnpW)) (out : List ℤ)
    (gts : List (Str × Option ℚ)) (tv lr : ℕ) :
    scanGo posMap [] out gts tv lr = .ok ⟨gts, tv, lr⟩ := rfl

theorem scanGo_header (posMap : List (ℤ × SnpW)) {l : Str} (rest : List Str)
    (out : List ℤ) (gts : List (Str × Option ℚ)) (tv lr : ℕ)
    (h : parseLine l = .header) :
    scanGo posMap (l :: rest) out gts tv lr =
      scanGo posMap rest out gts tv (lr + 1) := by
  rw [scanGo_cons, h]

theorem scanGo_badPos (posMap : List (ℤ × SnpW)) {l : Str} (rest : List Str)
    (out : List ℤ) (gts : List (Str × Option ℚ)) (tv lr : ℕ)
    (h : parseLine l = .badPos) :
    scanGo posMap (l :: rest) out gts tv lr = .error .valueError := by
  rw [scanGo_cons, h]

theorem scanGo_nomatch (posMap : List (ℤ × SnpW)) {l : Str} (rest : List Str)
    {out : List ℤ} (gts : List (Str × Option ℚ)) (tv lr : ℕ) {p : ℤ} {gt : Str}
    (h : parseLine l = .pos p gt) (hp : p ∉ out) :
    scanGo posMap (l :: rest) out gts tv lr =
      scanGo posMap rest out gts (tv + 1) (lr + 1) := by
  rw [scanGo_cons, h]
  exact if_neg hp

theorem scanGo_match_break (posMap : List (ℤ × SnpW)) {l : Str} (rest : List Str)
    {out : List ℤ} (gts : List (Str × Option ℚ)) (tv lr : ℕ) {p : ℤ} {gt : Str}
    {info : SnpW} (h : parseLine l = .pos p gt) (hp : p ∈ out)
    (hl : dictLookup p posMap = some info)
    (hout : out.filter (fun q => q ≠ p) = []) :
    scanGo posMap (l :: rest) out gts tv lr =
      .ok ⟨dictInsert info.rsid (decodeGt gt) gts, tv + 1, lr + 1⟩ := by
  rw [scanGo_cons, h]
  dsimp only
  rw [if_pos hp, hl]
  dsimp only
  rw [if_pos hout]

theorem scanGo_match_cont (posMap : List (ℤ × SnpW)) {l : Str} (rest : List Str)
    {out : List ℤ} (gts : List (Str × Option ℚ)) (tv lr : ℕ) {p : ℤ} {gt : Str}
    {info : SnpW} (h : parseLine l = .pos p gt) (hp : p ∈ out)
    (hl : dictLookup p posMap = some info)
    (hout : out.filter (fun q => q ≠ p) ≠ []) :
    scanGo posMap (l :: rest) out gts tv lr =
      scanGo posMap rest (out.filter (fun q => q ≠ p))
        (dictInsert info.rsid (decodeGt gt) gts) (tv + 1) (lr + 1) := by
  rw [scanGo_cons, h]
  dsimp only
  rw [if_pos hp, hl]
  dsimp only
  rw [if_neg hout]

theorem scanGo_match_keyerr (posMap : List (ℤ × SnpW)) {l : Str} (rest : List Str)
    {out : List ℤ} (gts : List (Str × Option ℚ)) (tv lr : ℕ) {p : ℤ} {gt : Str}
    (h : parseLine l = .pos p gt) (hp : p ∈ out)
    (hl : dictLookup p posMap = none) :
    scanGo posMap (l :: rest) out gts tv lr = .error .keyError := by
  rw [scanGo_cons, h]
  dsimp only
  rw [if_pos hp, hl]

theorem scanFullGo_nil (posMap : List (ℤ × SnpW)) (out : List ℤ)
    (gts : List (Str × Option ℚ)) (tv lr : ℕ) :
    scanFullGo posMap [] out gts tv lr = .ok ⟨gts, tv, lr⟩ := rfl

theorem scanFullGo_header (posMap : List (ℤ × SnpW)) {l : Str} (rest : List Str)
    (out : List ℤ) (gts : List (Str × Option ℚ)) (tv lr : ℕ)
    (h : parseLine l = .header) :
    scanFullGo posMap (l :: rest) out gts tv lr =
      scanFullGo posMap rest out gts tv (lr + 1) := by
  rw [scanFullGo_cons, h]

theorem scanFullGo_nomatch (posMap : List (ℤ × SnpW)) {l : Str} (rest : List Str)
    {out : List ℤ} (gts : List (Str × Option ℚ)) (tv lr : ℕ) {p : ℤ} {gt : Str}
    (h : parseLine l = .pos p gt) (hp : p ∉ out) :
    scanFullGo posMap (l :: rest) out gts tv lr =
      scanFullGo posMap rest out gts (tv + 1) (lr + 1) := by
  rw [scanFullGo_cons, h]
  exact if_neg hp

theorem scanFullGo_match (posMap : List (ℤ × SnpW)) {l : Str} (rest : List Str)
    {out : List ℤ} (gts : List (Str × Option ℚ)) (tv lr : ℕ) {p : ℤ} {gt : Str}
    {info : SnpW} (h : parseLine l = .pos p gt) (hp : p ∈ out)
    (hl : dictLookup p posMap = some info) :
    scanFullGo posMap (l :: rest) out gts tv lr =
      scanFullGo posMap rest (out.filter (fun q => q ≠ p))
        (dictInsert info.rsid (decodeGt gt) gts) (tv + 1) (lr + 1) := by
  rw [scanFullGo_cons, h]
  dsimp only
  rw [if_pos hp, hl]

/-- Once the outstanding set is empty, the full scan changes nothing: it
walks every remaining line without matching. -/
theorem scanFullGo_empty_out (posMap : List (ℤ × SnpW)) :
    ∀ (lines : List Str) (gts : List (Str × Option ℚ)) (tv lr : ℕ),
      (∀ l ∈ lines, lineOk l) →
      ∃ tv', scanFullGo posMap lines [] gts tv lr =
        .ok ⟨gts, tv', lr + lines.length⟩
  | [], gts, tv, lr, _ => ⟨tv, by simp [scanFullGo_nil]⟩
  | l :: rest, gts, tv, lr, hok => by
      have hrest : ∀ l' ∈ rest, lineOk l' := fun l' hl' => hok l' (by simp [hl'])
      cases hpl : parseLine l with
      | header =>
          obtain ⟨tv', htv⟩ := scanFullGo_empty_out posMap rest gts tv (lr + 1) hrest
          refine ⟨tv', ?_⟩
          rw [scanFullGo_header posMap rest [] gts tv lr hpl, htv]
          simp only [List.length_cons]
          ring_nf
      | badPos => exact absurd hpl (hok l (by simp))
      | pos p gt =>
          obtain ⟨tv', htv⟩ :=
            scanFullGo_empty_out posMap rest gts (tv + 1) (lr + 1) hrest
          refine ⟨tv', ?_⟩
          rw [scanFullGo_nomatch posMap rest gts tv lr hpl (by simp), htv]
          simp only [List.length_cons]
          ring_nf

/-- Early exit against the full scan: on a crash-free stream both scans
succeed, produce identical genotype dicts, and the full scan reads every
line. -/
theorem scan_early_full (posMap : List (ℤ × SnpW)) :
    ∀ (lines : List Str) (out : List ℤ) (gts : List (Str × Option ℚ)) (tv lr : ℕ),
      (∀ l ∈ lines, lineOk l) →
      (∀ p ∈ out, (dictLookup p posMap).isSome) →
      ∃ r r', scanGo posMap lines out gts tv lr = .ok r ∧
        scanFullGo posMap lines out gts tv lr = .ok r' ∧
        r.genotypes = r'.genotypes ∧ r'.linesRead = lr + lines.length
  | [], out, gts, tv, lr, _, _ =>
      ⟨⟨gts, tv, lr⟩, ⟨gts, tv, lr⟩, scanGo_nil .., scanFullGo_nil .., rfl, by simp⟩
  | l :: rest, out, gts, tv, lr, hok, hsub => by
      have hrest : ∀ l' ∈ rest, lineOk l' := fun l' hl' => hok l' (by simp [hl'])
      cases hpl : parseLine l with
      | header =>
          obtain ⟨r, r', h1, h2, h3, h4⟩ :=
            scan_early_full posMap rest out gts tv (lr + 1) hrest hsub
          refine ⟨r, r', ?_, ?_, h3, ?_⟩
          · rw [scanGo_header posMap rest out gts tv lr hpl, h1]
          · rw [scanFullGo_header posMap rest out gts tv lr hpl, h2]
          · rw [h4]; simp only [List.length_cons]; ring_nf
      | badPos => exact absurd hpl (hok l (by simp))
      | pos p gt =>
          by_cases hp : p ∈ out
          · obtain ⟨info, hinfo⟩ := Option.isSome_iff_exists.1 (hsub p hp)
            have hsub' : ∀ q ∈ out.filter (fun q => q ≠ p),
                (dictLookup q posMap).isSome := by
              intro q hq
              exact hsub q (List.mem_of_mem_filter hq)
            by_cases hout : out.filter (fun q => q ≠ p) = []
            · obtain ⟨tv', htv⟩ := scanFullGo_empty_out posMap rest
                (dictInsert info.rsid (decodeGt gt) gts) (tv + 1) (lr + 1) hrest
              refine ⟨⟨dictInsert info.rsid (decodeGt gt) gts, tv + 1, lr + 1⟩,
                ⟨dictInsert info.rsid (decodeGt gt) gts, tv', lr + 1 + rest.length⟩,
                ?_, ?_, rfl, ?_⟩
              · exact scanGo_match_break posMap rest gts tv lr hpl hp hinfo hout
              · rw [scanFullGo_match posMap rest gts tv lr hpl hp hinfo, hout, htv]
              · simp only [List.length_cons]; ring_nf
            · obtain ⟨r, r', h1, h2, h3, h4⟩ := scan_early_full posMap rest
                (out.filter (fun q => q ≠ p))
                (dictInsert info.rsid (decodeGt gt) gts) (tv + 1) (lr + 1) hrest hsub'
              refine ⟨r, r', ?_, ?_, h3, ?_⟩
              · rw [scanGo_match_cont posMap rest gts tv lr hpl hp hinfo hout, h1]
              · rw [scanFullGo_match posMap rest gts tv lr hpl hp hinfo, h2]
              · rw [h4]; simp only [List.length_cons]; ring_nf
          · obtain ⟨r, r', h1, h2, h3, h4⟩ :=
              scan_early_full posMap rest out gts (tv + 1) (lr + 1) hrest hsub
            refine ⟨r, r', ?_, ?_, h3, ?_⟩
            · rw [scanGo_nomatch posMap rest gts tv lr hpl hp, h1]
            · rw [scanFullGo_nomatch posMap rest gts tv lr hpl hp, h2]
            · rw [h4]; simp only [List.length_cons]; ring_nf

/-!  ## Membership lemmas for dicts and folds -/

theorem dictLookup_mem {α β : Type} [DecidableEq α] {k : α} {v : β} :
    ∀ {m : List (α × β)}, dictLookup k m = some v → (k, v) ∈ m
  | [], h => by simp [dictLookup] at h
  | (k₀, v₀) :: rest, h => by
      by_cases h₀ : k₀ = k
      · subst h₀
        have hv : v₀ = v := by
          simpa [dictLookup] using h
        subst hv
        simp
      · simp only [dictLookup, if_neg h₀] at h
        exact List.mem_cons_of_mem _ (dictLookup_mem h)

theorem dictInsert_mem {α β : Type} [DecidableEq α] {k : α} {v : β} :
    ∀ {m : List (α × β)} {pr : α × β},
      pr ∈ dictInsert k v m → pr = (k, v) ∨ pr ∈ m
  | [], pr, h => by simpa [dictInsert] using h
  | (k₀, v₀) :: rest, pr, h => by
      by_cases h₀ : k₀ = k
      · subst h₀
        have heq : dictInsert k₀ v ((k₀, v₀) :: rest) = (k₀, v) :: rest := by
          simp [dictInsert]
        rw [heq, List.mem_cons] at h
        rcases h with h | h
        · exact Or.inl h
        · exact Or.inr (List.mem_cons_of_mem _ h)
      · simp only [dictInsert, if_neg h₀, List.mem_cons] at h
        rcases h with h | h
        · exact Or.inr (by simp [h])
        · rcases dictInsert_mem h with h | h
          · exact Or.inl h
          · exact Or.inr (by simp [h])

theorem mem_foldl_dictInsert {α β : Type} [DecidableEq α] (f : β → α) :
    ∀ (l : List β) (m : List (α × β)) (pr : α × β),
      pr ∈ l.foldl (fun m s => dictInsert (f s) s m) m →
      pr ∈ m ∨ pr.2 ∈ l
  | [], _, _, h => Or.inl h
  | s :: rest, m, pr, h => by
      rcases mem_foldl_dictInsert f rest (dictInsert (f s) s m) pr h with h | h
      · rcases dictInsert_mem h with h | h
        · right
          simp [h]
        · exact Or.inl h
      · right
        exact List.mem_cons_of_mem _ h

theorem lookup_foldl_dictInsert_isSome {α β : Type} [DecidableEq α] (f : β → α) :
    ∀ (l : List β) (m : List (α × β)) (k : α),
      (k ∈ l.map f ∨ (dictLookup k m).isSome) →
      (dictLookup k (l.foldl (fun m s => dictInsert (f s) s m) m)).isSome
  | [], m, k, h => by
      rcases h with h | h
      · simp at h
      · exact h
  | s :: rest, m, k, h => by
      apply lookup_foldl_dictInsert_isSome f rest (dictInsert (f s) s m) k
      rcases h with h | h
      · simp only [List.map_cons, List.mem_cons] at h
        rcases h with h | h
        · right
          subst h
          rw [dictLookup_dictInsert_self]
          rfl
        · exact Or.inl h
      · right
        by_cases hk : f s = k
        · subst hk
          rw [dictLookup_dictInsert_self]
          rfl
        · rw [dictLookup_dictInsert_ne _ _ (Ne.symm hk)]
          exact h

theorem dictInsert_keys_subset {α β : Type} [DecidableEq α] (k : α) (v : β) :
    ∀ (m : List (α × β)), (dictInsert k v m).map Prod.fst ⊆ k :: m.map Prod.fst
  | [] => by simp [dictInsert]
  | (k₀, v₀) :: rest => by
      by_cases h : k₀ = k
      · subst h
        intro x hx
        simpa [dictInsert] using hx
      · intro x hx
        simp only [dictInsert, if_neg h, List.map_cons, List.mem_cons] at hx
        rcases hx with h1 | h2
        · simp [h1]
        · have := dictInsert_keys_subset k v rest h2
          simp only [List.mem_cons] at this ⊢
          tauto

/-- Every key of the scanned genotype dict is either a key of the initial
dict or the rsid of some entry of the position map. -/
theorem scanGo_keys (posMap : List (ℤ × SnpW)) :
    ∀ (lines : List Str) (out : List ℤ) (gts : List (Str × Option ℚ)) (tv lr : ℕ)
      (res : ScanResult),
      scanGo posMap lines out gts tv lr = .ok res →
      ∀ k ∈ res.genotypes.map Prod.fst,
        k ∈ gts.map Prod.fst ∨ ∃ pr ∈ posMap, pr.2.rsid = k
  | [], out, gts, tv, lr, res, hres, k, hk => by
      rw [scanGo_nil] at hres
      cases hres
      exact Or.inl hk
  | l :: rest, out, gts, tv, lr, res, hres, k, hk => by
      cases hpl : parseLine l with
      | header =>
          rw [scanGo_header posMap rest out gts tv lr hpl] at hres
          exact scanGo_keys posMap rest out gts tv (lr + 1) res hres k hk
      | badPos =>
          rw [scanGo_badPos posMap rest out gts tv lr hpl] at hres
          cases hres
      | pos p gt =>
          by_cases hp : p ∈ out
          · cases hll : dictLookup p posMap with
            | none =>
                rw [scanGo_match_keyerr posMap rest gts tv lr hpl hp hll] at hres
                cases hres
            | some info =>
                have hinfo : ∃ pr ∈ posMap, pr.2.rsid = info.rsid :=
                  ⟨(p, info), dictLookup_mem hll, rfl⟩
                by_cases hout : out.filter (fun q => q ≠ p) = []
                · rw [scanGo_match_break posMap rest gts tv lr hpl hp hll hout] at hres
                  cases hres
                  have hsub := dictInsert_keys_subset info.rsid (decodeGt gt) gts hk
                  simp only [List.mem_cons] at hsub
                  rcases hsub with h | h
                  · exact Or.inr (h ▸ hinfo)
                  · exact Or.inl h
                · rw [scanGo_match_cont posMap rest gts tv lr hpl hp hll hout] at hres
                  rcases scanGo_keys posMap rest (out.filter (fun q => q ≠ p))
                    (dictInsert info.rsid (decodeGt gt) gts) (tv + 1) (lr + 1)
                    res hres k hk with h | h
                  · have hsub := dictInsert_keys_subset info.rsid (decodeGt gt) gts h
                    simp only [List.mem_cons] at hsub
                    rcases hsub with h' | h'
                    · exact Or.inr (h' ▸ hinfo)
                    · exact Or.inl h'
                  · exact Or.inr h
          · rw [scanGo_nomatch posMap rest gts tv lr hpl hp] at hres
            exact scanGo_keys posMap rest out gts (tv + 1) (lr + 1) res hres k hk

theorem except_bind_ok {ε α β : Type} (a : α) (f : α → Except ε β) :
    (Except.ok a >>= f : Except ε β) = f a := rfl

/-- C3.  Given a successful scan, the scoring part of `analyze_vcf`
returns the no-matching-variants error outcome exactly when the genotype
dict is empty, and a non-empty dict — dosages may all be missing —
yields a success report, never an error. -/
theorem score_individual_noMatch_iff (weights : List SnpW) (lines : List Str)
    (scanRes : ScanResult)
    (hscan : scanGo (get_snp_position_map weights) lines
      (((get_snp_position_map weights).map Prod.fst).dedup) [] 0 0 = .ok scanRes) :
    (score_individual weights lines = .ok .noMatchingVariants ↔
      scanRes.genotypes = []) ∧
    (scanRes.genotypes ≠ [] →
      ∃ raw, score_individual weights lines =
        .ok (.report scanRes.genotypes raw scanRes.genotypes.length)) := by
  have hcov : ∀ p ∈ scanRes.genotypes, p.2 ≠ none →
      (dictLookup p.1 (snp_weights_map weights)).isSome := by
    intro p hp _
    have hk := scanGo_keys (get_snp_position_map weights) lines _ [] 0 0 scanRes hscan
      p.1 (List.mem_map_of_mem Prod.fst hp)
    rcases hk with hk | ⟨pr, hpr, hrs⟩
    · simp at hk
    · have hmem : pr.2 ∈ weights := by
        rcases mem_foldl_dictInsert SnpW.pos weights [] pr hpr with h | h
        · cases h
        · exact h
      apply lookup_foldl_dictInsert_isSome SnpW.rsid weights [] p.1
      exact Or.inl (hrs ▸ List.mem_map_of_mem SnpW.rsid hmem)
  have hunfold : score_individual weights lines =
      (if scanRes.genotypes = [] then .ok .noMatchingVariants
       else
         compute_prs_raw (snp_weights_map weights) scanRes.genotypes >>= fun raw =>
           .ok (.report scanRes.genotypes raw scanRes.genotypes.length)) := by
    simp only [score_individual]
    rw [hscan, except_bind_ok]
    rfl
  constructor
  · constructor
    · intro h
      by_contra hne
      rw [hunfold, if_neg hne, compute_prs_raw_spec_aux _ _ hcov, except_bind_ok] at h
      simp at h
    · intro h
      rw [hunfold, if_pos h]
  · intro hne
    refine ⟨specRawScore (snp_weights_map weights) scanRes.genotypes, ?_⟩
    rw [hunfold, if_neg hne, compute_prs_raw_spec_aux _ _ hcov, except_bind_ok]

/-- Witness for C3: the empty stream matches nothing and yields the
error outcome; a stream whose only match carries the missing genotype
`"./."` yields a success report with one matched SNP and raw score
unaffected by the missing dosage. -/
theorem score_individual_noMatch_iff_witness :
    score_individual [snpA] [] = .ok .noMatchingVariants ∧
    (∃ raw, score_individual [snpA] [str "1\t100\t.\t.\t.\t.\t.\t.\tGT\t./."] =
      .ok (.report [(str "rsA", none)] raw 1)) :=
  ⟨(score_individual_noMatch_iff [snpA] [] ⟨[], 0, 0⟩ (by decide)).1.mpr rfl,
   by
     have h := (score_individual_noMatch_iff [snpA]
       [str "1\t100\t.\t.\t.\t.\t.\t.\tGT\t./."] ⟨[(str "rsA", none)], 1, 1⟩
       (by decide)).2 (by decide)
     simpa using h⟩

/-!  ## Indexed-write lemmas for the backend feature vector -/

theorem dget_set_self {α : Type} (d a : α) :
    ∀ (l : List α) (i : ℕ), i < l.length → (l.set i a).getD i d = a
  | [], i, h => by simp at h
  | x :: xs, 0, _ => by simp [List.getD]
  | x :: xs, i + 1, h => by
      simp only [List.set_cons_succ, List.getD_cons_succ]
      exact dget_set_self d a xs i (by simpa using h)

theorem dget_set_ne {α : Type} (d a : α) :
    ∀ (l : List α) (i j : ℕ), i ≠ j → (l.set i a).getD j d = l.getD j d
  | [], _, _, _ => by simp
  | x :: xs, 0, 0, h => absurd rfl h
  | x :: xs, 0, j + 1, _ => by simp [List.getD]
  | x :: xs, i + 1, 0, _ => by simp [List.getD]
  | x :: xs, i + 1, j + 1, h => by
      simp only [List.set_cons_succ, List.getD_cons_succ]
      exact dget_set_ne d a xs i j (by omega)

theorem prefill_go_length (snps : List SnpMeta) :
    ∀ v : List ℚ,
      (snps.foldl (fun v s => v.set s.index (s.popMean.getD 0)) v).length =
        v.length := by
  induction snps with
  | nil => intro v; rfl
  | cons s rest ih =>
      intro v
      simp only [List.foldl_cons]
      rw [ih (v.set s.index (s.popMean.getD 0))]
      simp

theorem prefill_go_untouched (snps : List SnpMeta) :
    ∀ (v : List ℚ) (i : ℕ),
      (∀ s ∈ snps, s.index ≠ i) →
      (snps.foldl (fun v s => v.set s.index (s.popMean.getD 0)) v).getD i 0 =
        v.getD i 0 := by
  induction snps with
  | nil => intro v i _; rfl
  | cons s rest ih =>
      intro v i h
      simp only [List.foldl_cons]
      rw [ih _ i (fun t ht => h t (by simp [ht])),
        dget_set_ne 0 _ v s.index i (h s (by simp))]

theorem prefill_go_getD (snps : List SnpMeta) :
    ∀ (v : List ℚ) (s : SnpMeta),
      s ∈ snps → (snps.map SnpMeta.index).Nodup → s.index < v.length →
      (snps.foldl (fun v t => v.set t.index (t.popMean.getD 0)) v).getD s.index 0 =
        s.popMean.getD 0 := by
  induction snps with
  | nil => intro v s hs; cases hs
  | cons t rest ih =>
      intro v s hs hnd hlt
      simp only [List.map_cons, List.nodup_cons] at hnd
      simp only [List.foldl_cons]
      rcases List.mem_cons.1 hs with h | h
      · subst h
        rw [prefill_go_untouched rest _ s.index
          (fun t' ht' hEq => hnd.1 (hEq ▸ List.mem_map_of_mem SnpMeta.index ht')),
          dget_set_self 0 _ v s.index hlt]
      · exact ih _ s h hnd.2 (by simpa using hlt)

theorem override_go_length (genotypes : List (ℤ × ℤ)) (snps : List SnpMeta) :
    ∀ v : List ℚ, (overrideVector snps genotypes v).length = v.length := by
  induction snps with
  | nil => intro v; rfl
  | cons s rest ih =>
      intro v
      simp only [overrideVector, List.foldl_cons]
      cases hl : dictLookup s.pos genotypes with
      | none => exact ih v
      | some a =>
          exact (ih (v.set s.index (a : ℚ))).trans (by simp)

theorem override_go_untouched (genotypes : List (ℤ × ℤ)) (snps : List SnpMeta) :
    ∀ (v : List ℚ) (i : ℕ),
      (∀ s ∈ snps, s.index ≠ i) →
      (overrideVector snps genotypes v).getD i 0 = v.getD i 0 := by
  induction snps with
  | nil => intro v i _; rfl
  | cons s rest ih =>
      intro v i h
      simp only [overrideVector, List.foldl_cons]
      cases hl : dictLookup s.pos genotypes with
      | none => exact ih v i (fun t ht => h t (by simp [ht]))
      | some a =>
          exact (ih (v.set s.index (a : ℚ)) i (fun t ht => h t (by simp [ht]))).trans
            (dget_set_ne 0 _ v s.index i (h s (by simp)))

theorem override_go_getD (genotypes : List (ℤ × ℤ)) (snps : List SnpMeta) :
    ∀ (v : List ℚ) (s : SnpMeta),
      s ∈ snps → (snps.map SnpMeta.index).Nodup → s.index < v.length →
      (overrideVector snps genotypes v).getD s.index 0 =
        (match dictLookup s.pos genotypes with
         | some a => (a : ℚ)
         | none => v.getD s.index 0) := by
  induction snps with
  | nil => intro v s hs; cases hs
  | cons t rest ih =>
      intro v s hs hnd hlt
      simp only [List.map_cons, List.nodup_cons] at hnd
      simp only [overrideVector, List.foldl_cons] at ih ⊢
      rcases List.mem_cons.1 hs with h | h
      · subst h
        have huntouched : ∀ t' ∈ rest, t'.index ≠ s.index :=
          fun t' ht' hEq => hnd.1 (hEq ▸ List.mem_map_of_mem SnpMeta.index ht')
        cases hl : dictLookup s.pos genotypes with
        | none => exact override_go_untouched genotypes rest v s.index huntouched
        | some a =>
            exact (override_go_untouched genotypes rest _ s.index huntouched).trans
              (dget_set_self 0 _ v s.index hlt)
      · have hne : t.index ≠ s.index := by
          intro hEq
          exact hnd.1 (hEq ▸ List.mem_map_of_mem SnpMeta.index h)
        cases hl : dictLookup t.pos genotypes with
        | none => exact ih v s h hnd.2 hlt
        | some a =>
            have h2 := ih (v.set t.index (a : ℚ)) s h hnd.2 (by simpa using hlt)
            exact h2.trans (by rw [dget_set_ne 0 _ v t.index s.index hne])

/-- C8.  Feature assembly follows the model's expected order exactly.
For the Code engine (`analyze_vcf` step 5): the output has one element
per expected feature name; the element named `"prs_raw"` is the raw
score and every other element is the observed non-missing dosage for
that rsid, else 0 (this engine's metadata carries no population means,
so its fallback chain degenerates to 0).  For the backend engine
(`InferenceEngine.analyze_vcf`): the vector has length `n_snps`, and
each SNP's column holds the observed alt-allele count when its position
was matched, else `pop_mean` when available, else 0. -/
theorem assemble_features_contract
    (names : List Str) (gts : List (Str × Option ℚ)) (raw : ℚ)
    (snps : List SnpMeta) (n : ℕ) (genotypes : List (ℤ × ℤ))
    (hnd : (snps.map SnpMeta.index).Nodup) (hlt : ∀ s ∈ snps, s.index < n) :
    ((assemble_features names gts raw).length = names.length ∧
     ∀ i, i < names.length →
       (assemble_features names gts raw).getD i 0 =
         (if names.getD i [] = str "prs_raw" then raw
          else
            match dictLookup (names.getD i []) gts with
            | some (some g) => g
            | some none => 0
            | none => 0)) ∧
    ((build_input_vector snps n genotypes).length = n ∧
     ∀ s ∈ snps, (build_input_vector snps n genotypes).getD s.index 0 =
       (match dictLookup s.pos genotypes with
        | some a => (a : ℚ)
        | none => s.popMean.getD 0)) := by
  refine ⟨⟨by simp [assemble_features], ?_⟩, ?_, ?_⟩
  · intro i hi
    have h1 : (assemble_features names gts raw).getD i 0 =
        (fun fname =>
          if fname = str "prs_raw" then raw
          else
            match dictLookup fname gts with
            | some (some g) => g
            | some none => 0
            | none => 0) names[i] := by
      unfold assemble_features
      rw [List.getD_eq_getElem?_getD, List.getElem?_map, List.getElem?_eq_getElem hi]
      rfl
    have h2 : names.getD i [] = names[i] := by
      rw [List.getD_eq_getElem?_getD, List.getElem?_eq_getElem hi]
      rfl
    rw [h1, h2]
  · unfold build_input_vector prefillVector
    rw [override_go_length, prefill_go_length]
    simp
  · intro s hs
    have hlen : s.index < (prefillVector snps n).length := by
      unfold prefillVector
      rw [prefill_go_length]
      simpa using hlt s hs
    unfold build_input_vector
    rw [override_go_getD genotypes snps (prefillVector snps n) s hs hnd hlen]
    cases hl : dictLookup s.pos genotypes with
    | some a => rfl
    | none =>
        unfold prefillVector
        exact prefill_go_getD snps (List.replicate n 0) s hs hnd
          (by simpa using hlt s hs)

/-- Backend SNP metadata used by the C8 witness: column 0 carries a
population mean of 1/2, column 1 has none. -/
def metaA : SnpMeta := ⟨0, 100, str "rsA", some (1/2)⟩

def metaB : SnpMeta := ⟨1, 200, str "rsB", none⟩

/-- Witness for C8: with expected order [prs_raw, rsA], observed
{rsA ↦ 2} and raw score 5 the Code engine builds [5, 2]; the backend
builds [2, 0] — column 0 overridden by the matched genotype, column 1
falling back to `pop_mean` absent → 0. -/
theorem assemble_features_contract_witness :
    (assemble_features [str "prs_raw", str "rsA"] [(str "rsA", some 2)] 5).length = 2 ∧
    (build_input_vector [metaA, metaB] 2 [(100, 2)]).length = 2 ∧
    (build_input_vector [metaA, metaB] 2 [(100, 2)]).getD 0 0 = 2 ∧
    (build_input_vector [metaA, metaB] 2 [(100, 2)]).getD 1 0 = 0 ∧
    assemble_features [str "prs_raw", str "rsA"] [(str "rsA", some 2)] 5 = [5, 2] := by
  have h := assemble_features_contract [str "prs_raw", str "rsA"]
    [(str "rsA", some 2)] 5 [metaA, metaB] 2 [(100, 2)] (by decide) (by decide)
  refine ⟨by simpa using h.1.1, h.2.1, ?_, ?_, by with_unfolding_all decide⟩
  · have h0 := h.2.2 metaA (by simp)
    simpa [metaA, dictLookup] using h0
  · have h1 := h.2.2 metaB (by simp)
    simpa [metaB, dictLookup] using h1

theorem map_getD_range (zs : List ℚ) :
    (List.range zs.length).map (fun i => zs.getD i 0) = zs := by
  induction zs with
  | nil => rfl
  | cons z rest ih =>
      rw [List.length_cons, List.range_succ_eq_map, List.map_cons, List.map_map]
      have hfun : ((fun i => (z :: rest).getD i 0) ∘ Nat.succ) =
          (fun i => rest.getD i 0) := by
        funext i
        simp [List.getD_cons_succ]
      rw [hfun, ih]
      rfl

/-- C10.  `simulate_disease_labels` is deterministic: it is a pure
function of the scores, the parameters, and the seeded generator
(`np.random.default_rng(seed)` is a deterministic stream, so two runs
with the same seed receive the same `Rng` and produce identical
liabilities, probabilities and labels).  Moreover, with h² = 1 the
noise coefficient `sqrt(1 − h²)` vanishes, so every liability equals
`sqrt(h²) × z = z` whatever the gaussian draws are, and the Bernoulli
labels depend only on the (seed-determined) uniform draws. -/
theorem simulate_deterministic (sqrtQ logQ expitQ : ℚ → ℚ) (rng : Rng)
    (zs : List ℚ) (her prev : ℚ)
    (h0 : sqrtQ 0 = 0) (h1 : sqrtQ 1 = 1) :
    simulate_disease_labels sqrtQ logQ expitQ rng zs her prev =
      simulate_disease_labels sqrtQ logQ expitQ rng zs her prev ∧
    (her = 1 → ∀ rng' : Rng,
      (simulate_disease_labels sqrtQ logQ expitQ rng' zs her prev).map
        LiabilityLabel.liability = zs) ∧
    (her = 1 → ∀ rng' : Rng, rng'.unif = rng.unif →
      (simulate_disease_labels sqrtQ logQ expitQ rng' zs her prev).map
        LiabilityLabel.label =
      (simulate_disease_labels sqrtQ logQ expitQ rng zs her prev).map
        LiabilityLabel.label) := by
  have hA : ∀ (r : Rng) (i : ℕ),
      sqrtQ 1 * zs.getD i 0 + sqrtQ (1 - 1) * r.gauss i = zs.getD i 0 := by
    intro r i
    rw [h1, show (1 : ℚ) - 1 = 0 by ring, h0]
    ring
  refine ⟨rfl, ?_, ?_⟩
  · intro hh rng'
    subst hh
    unfold simulate_disease_labels
    rw [List.map_map]
    calc (List.range zs.length).map
          ((fun ll => LiabilityLabel.liability ll) ∘ fun i =>
            ⟨sqrtQ 1 * zs.getD i 0 + sqrtQ (1 - 1) * rng'.gauss i,
             expitQ ((sqrtQ 1 * zs.getD i 0 + sqrtQ (1 - 1) * rng'.gauss i) +
               logQ (prev / (1 - prev))),
             if rng'.unif i <
                 expitQ ((sqrtQ 1 * zs.getD i 0 + sqrtQ (1 - 1) * rng'.gauss i) +
                   logQ (prev / (1 - prev))) then 1 else 0⟩)
        = (List.range zs.length).map (fun i => zs.getD i 0) := by
          apply List.map_congr_left
          intro i _
          exact hA rng' i
      _ = zs := map_getD_range zs
  · intro hh rng' hu
    subst hh
    unfold simulate_disease_labels
    rw [List.map_map, List.map_map]
    apply List.map_congr_left
    intro i _
    show (if rng'.unif i <
        expitQ ((sqrtQ 1 * zs.getD i 0 + sqrtQ (1 - 1) * rng'.gauss i) +
          logQ (prev / (1 - prev))) then (1 : ℕ) else 0) =
      (if rng.unif i <
        expitQ ((sqrtQ 1 * zs.getD i 0 + sqrtQ (1 - 1) * rng.gauss i) +
          logQ (prev / (1 - prev))) then (1 : ℕ) else 0)
    rw [hu, hA rng' i, hA rng i]

/-- Witness for C10, on the spec's concrete scenario scores [+2, −2]
with h² = 1: every liability equals the normalized score itself. -/
theorem simulate_deterministic_witness :
    (simulate_disease_labels (fun x => if x = 1 then 1 else 0) (fun _ => 0)
      (fun _ => 1/2) ⟨fun _ => 0, fun _ => 0⟩ [2, -2] 1 (1/2)).map
        LiabilityLabel.liability = [2, -2] :=
  (simulate_deterministic (fun x => if x = 1 then 1 else 0) (fun _ => 0)
      (fun _ => 1/2) ⟨fun _ => 0, fun _ => 0⟩ [2, -2] 1 (1/2)
      (by decide) (by decide)).2.1 rfl ⟨fun _ => 0, fun _ => 0⟩

/-!  ## Early exit (C7) -/

theorem linePos?_of_header {l : Str} (h : parseLine l = .header) :
    linePos? l = none := by
  simp [linePos?, h]

theorem linePos?_of_pos {l : Str} {p : ℤ} {gt : Str} (h : parseLine l = .pos p gt) :
    linePos? l = some p := by
  simp [linePos?, h]

/-- If every outstanding position occurs as the position of a data line
within the first `K` lines, the early-exit scan succeeds and consumes at
most `K` lines. -/
theorem scanGo_early_bound (posMap : List (ℤ × SnpW)) :
    ∀ (lines : List Str) (K : ℕ) (out : List ℤ) (gts : List (Str × Option ℚ))
      (tv lr : ℕ),
      out ≠ [] →
      (∀ p ∈ out, ∃ l ∈ lines.take K, linePos? l = some p) →
      (∀ l ∈ lines, lineOk l) →
      (∀ p ∈ out, (dictLookup p posMap).isSome) →
      ∃ res, scanGo posMap lines out gts tv lr = .ok res ∧ res.linesRead ≤ lr + K
  | [], K, out, gts, tv, lr, hne, hcov, _, _ => by
      obtain ⟨p, hp⟩ := List.exists_mem_of_ne_nil out hne
      obtain ⟨l, hl, _⟩ := hcov p hp
      simp at hl
  | l :: rest, K, out, gts, tv, lr, hne, hcov, hok, hsub => by
      cases K with
      | zero =>
          obtain ⟨p, hp⟩ := List.exists_mem_of_ne_nil out hne
          obtain ⟨l', hl', _⟩ := hcov p hp
          simp at hl'
      | succ K' =>
          have hrest : ∀ l' ∈ rest, lineOk l' := fun l' hl' => hok l' (by simp [hl'])
          cases hpl : parseLine l with
          | header =>
              have hcov' : ∀ p ∈ out, ∃ l' ∈ rest.take K', linePos? l' = some p := by
                intro p hp
                obtain ⟨l', hl', hlp⟩ := hcov p hp
                rw [List.take_succ_cons, List.mem_cons] at hl'
                rcases hl' with h | h
                · subst h
                  rw [linePos?_of_header hpl] at hlp
                  cases hlp
                · exact ⟨l', h, hlp⟩
              obtain ⟨res, hres, hb⟩ := scanGo_early_bound posMap rest K' out gts
                tv (lr + 1) hne hcov' hrest hsub
              refine ⟨res, ?_, by omega⟩
              rw [scanGo_header posMap rest out gts tv lr hpl, hres]
          | badPos => exact absurd hpl (hok l (by simp))
          | pos p gt =>
              by_cases hp : p ∈ out
              · obtain ⟨info, hinfo⟩ := Option.isSome_iff_exists.1 (hsub p hp)
                by_cases hout : out.filter (fun q => q ≠ p) = []
                · exact ⟨⟨dictInsert info.rsid (decodeGt gt) gts, tv + 1, lr + 1⟩,
                    scanGo_match_break posMap rest gts tv lr hpl hp hinfo hout,
                    by dsimp only; omega⟩
                · have hcov' : ∀ q ∈ out.filter (fun q => q ≠ p),
                      ∃ l' ∈ rest.take K', linePos? l' = some q := by
                    intro q hq
                    have hqo : q ∈ out := List.mem_of_mem_filter hq
                    have hqne : q ≠ p := by
                      have := List.of_mem_filter hq
                      simpa using this
                    obtain ⟨l', hl', hlp⟩ := hcov q hqo
                    rw [List.take_succ_cons, List.mem_cons] at hl'
                    rcases hl' with h | h
                    · subst h
                      rw [linePos?_of_pos hpl] at hlp
                      cases hlp
                      exact absurd rfl hqne
                    · exact ⟨l', h, hlp⟩
                  have hsub' : ∀ q ∈ out.filter (fun q => q ≠ p),
                      (dictLookup q posMap).isSome :=
                    fun q hq => hsub q (List.mem_of_mem_filter hq)
                  obtain ⟨res, hres, hb⟩ := scanGo_early_bound posMap rest K'
                    (out.filter (fun q => q ≠ p))
                    (dictInsert info.rsid (decodeGt gt) gts) (tv + 1) (lr + 1)
                    hout hcov' hrest hsub'
                  refine ⟨res, ?_, by omega⟩
                  rw [scanGo_match_cont posMap rest gts tv lr hpl hp hinfo hout, hres]
              · have hcov' : ∀ q ∈ out, ∃ l' ∈ rest.take K', linePos? l' = some q := by
                  intro q hq
                  obtain ⟨l', hl', hlp⟩ := hcov q hq
                  rw [List.take_succ_cons, List.mem_cons] at hl'
                  rcases hl' with h | h
                  · subst h
                    rw [linePos?_of_pos hpl] at hlp
                    cases hlp
                    exact absurd hq hp
                  · exact ⟨l', h, hlp⟩
                obtain ⟨res, hres, hb⟩ := scanGo_early_bound posMap rest K' out gts
                  (tv + 1) (lr + 1) hne hcov' hrest hsub
                refine ⟨res, ?_, by omega⟩
                rw [scanGo_nomatch posMap rest gts tv lr hpl hp, hres]

/-- Counterexample for C7.  With an empty position index, all (zero)
target positions occur within the first 0 lines, yet the scanner still
consumes the stream's line: emptiness of the outstanding set is only
tested after a match, so an M = 0 scan reads to end-of-stream. -/
theorem scan_empty_index_counterexample :
    parse_vcf_bytes ([] : List (ℤ × SnpW)) [str "stream line"] = .ok ⟨[], 0, 1⟩ ∧
    ¬ ((1 : ℕ) ≤ 0) := by decide

/-- C7 (amended).  For a non-empty position index whose M positions all
occur within the first K lines of a crash-free stream, the early-exit
scan stops at or before line K while the full scan reads all N lines,
and both produce the same genotype dict. -/
theorem scan_early_exit (posMap : List (ℤ × SnpW)) (lines : List Str) (K : ℕ)
    (hne : ((posMap.map Prod.fst).dedup) ≠ [])
    (hcov : ∀ p ∈ (posMap.map Prod.fst).dedup,
      ∃ l ∈ lines.take K, linePos? l = some p)
    (hok : ∀ l ∈ lines, lineOk l) :
    ∃ r r', parse_vcf_bytes posMap lines = .ok r ∧
      parse_vcf_bytes_full posMap lines = .ok r' ∧
      r.linesRead ≤ K ∧ r.genotypes = r'.genotypes ∧
      r'.linesRead = lines.length := by
  have hsub : ∀ p ∈ (posMap.map Prod.fst).dedup, (dictLookup p posMap).isSome := by
    intro p hp
    rw [dictLookup_isSome_iff]
    exact List.mem_dedup.1 hp
  obtain ⟨r, hr, hbound⟩ := scanGo_early_bound posMap lines K _ [] 0 0 hne hcov hok hsub
  obtain ⟨r₂, r', hr₂, hr', hgts, hlen⟩ := scan_early_full posMap lines _ [] 0 0 hok hsub
  rw [hr] at hr₂
  cases hr₂
  exact ⟨r, r', hr, hr', by simpa using hbound, hgts, by simpa using hlen⟩

/-- Stream lines used by the C7 and C9 witnesses. -/
def line100 : Str := str "1\t100\trsA\tA\tG\t.\t.\t.\tGT\t0/1"

def line200 : Str := str "1\t200\trsB\tA\tG\t.\t.\t.\tGT\t1/1"

/-- Witness for C7: both target positions sit in the first two lines of a
three-line stream, so the early-exit scan reads at most two lines while
the full scan reads all three, with identical genotype dicts. -/
theorem scan_early_exit_witness :
    ∃ r r', parse_vcf_bytes [(100, snpA), (200, snpB)]
        [line100, line200, str "##trailer"] = .ok r ∧
      parse_vcf_bytes_full [(100, snpA), (200, snpB)]
        [line100, line200, str "##trailer"] = .ok r' ∧
      r.linesRead ≤ 2 ∧ r.genotypes = r'.genotypes ∧ r'.linesRead = 3 := by
  have h := scan_early_exit [(100, snpA), (200, snpB)]
    [line100, line200, str "##trailer"] 2 (by decide) (by decide) (by decide)
  simpa using h

/-!  ## Order independence (C9) -/

/-- The genotype entry a line contributes to a scan whose initial
outstanding set is `out`: a data line whose position is outstanding and
indexed yields `(rsid, decoded dosage)`. -/
def entryFor (posMap : List (ℤ × SnpW)) (out : List ℤ) (line : Str) :
    Option (Str × Option ℚ) :=
  match parseLine line with
  | .pos p gt =>
      if p ∈ out then (dictLookup p posMap).map (fun s => (s.rsid, decodeGt gt))
      else none
  | _ => none

theorem entryFor_header {posMap : List (ℤ × SnpW)} {out : List ℤ} {l : Str}
    (h : parseLine l = .header) : entryFor posMap out l = none := by
  simp [entryFor, h]

theorem entryFor_nomatch {posMap : List (ℤ × SnpW)} {out : List ℤ} {l : Str}
    {p : ℤ} {gt : Str} (h : parseLine l = .pos p gt) (hp : p ∉ out) :
    entryFor posMap out l = none := by
  simp [entryFor, h, hp]

theorem entryFor_match {posMap : List (ℤ × SnpW)} {out : List ℤ} {l : Str}
    {p : ℤ} {gt : Str} {info : SnpW} (h : parseLine l = .pos p gt) (hp : p ∈ out)
    (hl : dictLookup p posMap = some info) :
    entryFor posMap out l = some (info.rsid, decodeGt gt) := by
  simp [entryFor, h, hp, hl]

theorem entryFor_inv {posMap : List (ℤ × SnpW)} {out : List ℤ} {l : Str}
    {e : Str × Option ℚ} (h : entryFor posMap out l = some e) :
    ∃ p gt info, parseLine l = .pos p gt ∧ p ∈ out ∧
      dictLookup p posMap = some info ∧ e = (info.rsid, decodeGt gt) := by
  cases hpl : parseLine l with
  | header => rw [entryFor_header hpl] at h; cases h
  | badPos => simp [entryFor, hpl] at h
  | pos p gt =>
      by_cases hp : p ∈ out
      · cases hl : dictLookup p posMap with
        | none => simp [entryFor, hpl, hp, hl] at h
        | some info =>
            rw [entryFor_match hpl hp hl] at h
            cases h
            exact ⟨p, gt, info, rfl, hp, hl, rfl⟩
      · rw [entryFor_nomatch hpl hp] at h
        cases h

theorem foldl_dictInsert_pairs {α β : Type} [DecidableEq α] :
    ∀ (es : List (α × β)) (m : List (α × β)),
      (∀ e ∈ es, dictLookup e.1 m = none) →
      (es.map Prod.fst).Nodup →
      es.foldl (fun d e => dictInsert e.1 e.2 d) m = m ++ es
  | [], m, _, _ => by simp
  | e :: rest, m, hfresh, hnd => by
      have h₀ : dictLookup e.1 m = none := hfresh e (by simp)
      simp only [List.map_cons, List.nodup_cons] at hnd
      have hrest : ∀ e' ∈ rest, dictLookup e'.1 (m ++ [(e.1, e.2)]) = none := by
        intro e' he'
        rw [dictLookup_append_single]
        have h₁ : dictLookup e'.1 m = none := hfresh e' (by simp [he'])
        have h₂ : e.1 ≠ e'.1 := by
          intro hEq
          exact hnd.1 (hEq ▸ List.mem_map_of_mem Prod.fst he')
        simp [h₁, h₂]
      simp only [List.foldl_cons]
      rw [dictInsert_fresh _ _ _ h₀, foldl_dictInsert_pairs rest (m ++ [(e.1, e.2)])
        hrest hnd.2]
      simp

theorem dictLookup_map_key {α β : Type} [DecidableEq α] (f : β → α) :
    ∀ (l : List β) (k : α) (v : β),
      dictLookup k (l.map (fun s => (f s, s))) = some v → f v = k
  | [], k, v, h => by simp [dictLookup] at h
  | s :: rest, k, v, h => by
      by_cases hk : f s = k
      · have hsv : s = v := by
          simpa [dictLookup, hk] using h
        exact hsv ▸ hk
      · have h' : dictLookup k (rest.map (fun s => (f s, s))) = some v := by
          simpa [dictLookup, hk] using h
        exact dictLookup_map_key f rest k v h'

/-- Characterization of the scan's genotype dict: when no indexed
position occurs more than once among the lines, the dict is the initial
dict extended, in stream order, by the entry of every matching line. -/
theorem scanGo_characterize (posMap : List (ℤ × SnpW)) :
    ∀ (lines : List Str) (out : List ℤ) (gts : List (Str × Option ℚ)) (tv lr : ℕ),
      (∀ l ∈ lines, lineOk l) →
      (∀ p ∈ out, (dictLookup p posMap).isSome) →
      (∀ p ∈ out, lines.countP (fun l => linePos? l == some p) ≤ 1) →
      ∃ res, scanGo posMap lines out gts tv lr = .ok res ∧
        res.genotypes =
          (lines.filterMap (entryFor posMap out)).foldl
            (fun d e => dictInsert e.1 e.2 d) gts
  | [], out, gts, tv, lr, _, _, _ => ⟨⟨gts, tv, lr⟩, scanGo_nil .., by simp⟩
  | l :: rest, out, gts, tv, lr, hok, hsub, honce => by
      have hrest : ∀ l' ∈ rest, lineOk l' := fun l' hl' => hok l' (by simp [hl'])
      have hcnt_rest : ∀ p ∈ out,
          rest.countP (fun l' => linePos? l' == some p) ≤ 1 := by
        intro p hp
        have := honce p hp
        rw [List.countP_cons] at this
        omega
      cases hpl : parseLine l with
      | header =>
          obtain ⟨res, hres, hgts⟩ := scanGo_characterize posMap rest out gts tv
            (lr + 1) hrest hsub hcnt_rest
          refine ⟨res, ?_, ?_⟩
          · rw [scanGo_header posMap rest out gts tv lr hpl, hres]
          · rw [hgts]
            congr 1
            simp [List.filterMap_cons, entryFor_header hpl]
      | badPos => exact absurd hpl (hok l (by simp))
      | pos p gt =>
          by_cases hp : p ∈ out
          · obtain ⟨info, hinfo⟩ := Option.isSome_iff_exists.1 (hsub p hp)
            have hfm : (l :: rest).filterMap (entryFor posMap out) =
                (info.rsid, decodeGt gt) :: rest.filterMap (entryFor posMap out) := by
              simp [List.filterMap_cons, entryFor_match hpl hp hinfo]
            have hnop : ∀ l' ∈ rest, linePos? l' ≠ some p := by
              have h1 := honce p hp
              have h2 : (l :: rest).countP (fun l' => linePos? l' == some p) =
                  rest.countP (fun l' => linePos? l' == some p) + 1 := by
                rw [List.countP_cons]
                simp [linePos?_of_pos hpl]
              rw [h2] at h1
              have h3 : rest.countP (fun l' => linePos? l' == some p) = 0 := by omega
              intro l' hl' hlp
              have : 0 < rest.countP (fun l' => linePos? l' == some p) :=
                List.countP_pos_iff.2 ⟨l', hl', by simp [hlp]⟩
              omega
            by_cases hout : out.filter (fun q => q ≠ p) = []
            · have hfm_rest : rest.filterMap (entryFor posMap out) = [] := by
                rw [List.filterMap_eq_nil_iff]
                intro l' hl'
                cases hpl' : parseLine l' with
                | header => exact entryFor_header hpl'
                | badPos => simp [entryFor, hpl']
                | pos q gt' =>
                    refine entryFor_nomatch hpl' ?_
                    intro hq
                    have hqp : q ≠ p := by
                      intro hEq
                      exact hnop l' hl' (hEq ▸ linePos?_of_pos hpl')
                    have : q ∈ out.filter (fun r => r ≠ p) :=
                      List.mem_filter.2 ⟨hq, by simp [hqp]⟩
                    rw [hout] at this
                    cases this
              refine ⟨⟨dictInsert info.rsid (decodeGt gt) gts, tv + 1, lr + 1⟩,
                scanGo_match_break posMap rest gts tv lr hpl hp hinfo hout, ?_⟩
              rw [hfm, hfm_rest]
              rfl
            · have hcong : ∀ l' ∈ rest,
                  entryFor posMap (out.filter (fun q => q ≠ p)) l' =
                    entryFor posMap out l' := by
                intro l' hl'
                cases hpl' : parseLine l' with
                | header => rw [entryFor_header hpl', entryFor_header hpl']
                | badPos => simp [entryFor, hpl']
                | pos q gt' =>
                    have hqp : q ≠ p := by
                      intro hEq
                      exact hnop l' hl' (hEq ▸ linePos?_of_pos hpl')
                    by_cases hq : q ∈ out
                    · have hq' : q ∈ out.filter (fun r => r ≠ p) :=
                        List.mem_filter.2 ⟨hq, by simp [hqp]⟩
                      obtain ⟨i', hi'⟩ := Option.isSome_iff_exists.1 (hsub q hq)
                      rw [entryFor_match hpl' hq' hi', entryFor_match hpl' hq hi']
                    · have hq' : q ∉ out.filter (fun r => r ≠ p) := by
                        intro hmem
                        exact hq (List.mem_of_mem_filter hmem)
                      rw [entryFor_nomatch hpl' hq', entryFor_nomatch hpl' hq]
              have hsub' : ∀ q ∈ out.filter (fun q => q ≠ p),
                  (dictLookup q posMap).isSome :=
                fun q hq => hsub q (List.mem_of_mem_filter hq)
              have hcnt' : ∀ q ∈ out.filter (fun q => q ≠ p),
                  rest.countP (fun l' => linePos? l' == some q) ≤ 1 :=
                fun q hq => hcnt_rest q (List.mem_of_mem_filter hq)
              obtain ⟨res, hres, hgts⟩ := scanGo_characterize posMap rest
                (out.filter (fun q => q ≠ p))
                (dictInsert info.rsid (decodeGt gt) gts) (tv + 1) (lr + 1)
                hrest hsub' hcnt'
              refine ⟨res, ?_, ?_⟩
              · rw [scanGo_match_cont posMap rest gts tv lr hpl hp hinfo hout, hres]
              · rw [hgts, List.filterMap_congr hcong, hfm, List.foldl_cons]
          · obtain ⟨res, hres, hgts⟩ := scanGo_characterize posMap rest out gts
              (tv + 1) (lr + 1) hrest hsub hcnt_rest
            refine ⟨res, ?_, ?_⟩
            · rw [scanGo_nomatch posMap rest gts tv lr hpl hp, hres]
            · rw [hgts]
              congr 1
              simp [List.filterMap_cons, entryFor_nomatch hpl hp]

/-- Distinctness of the recorded rsids: with an injective
position → rsid table and no indexed position occurring twice among the
lines, no rsid is recorded twice. -/
theorem entries_keys_nodup (posMap : List (ℤ × SnpW)) (out : List ℤ)
    (hcanon : ∀ (p : ℤ) (info : SnpW), dictLookup p posMap = some info → info.pos = p)
    (hrsinj : ∀ pr ∈ posMap, ∀ pr' ∈ posMap,
      pr.2.rsid = pr'.2.rsid → pr.2.pos = pr'.2.pos) :
    ∀ lines : List Str,
      (∀ p ∈ out, lines.countP (fun l => linePos? l == some p) ≤ 1) →
      ((lines.filterMap (entryFor posMap out)).map Prod.fst).Nodup
  | [], _ => by simp
  | l :: rest, honce => by
      have hcnt_rest : ∀ p ∈ out,
          rest.countP (fun l' => linePos? l' == some p) ≤ 1 := by
        intro p hp
        have := honce p hp
        rw [List.countP_cons] at this
        omega
      have ihr := entries_keys_nodup posMap out hcanon hrsinj rest hcnt_rest
      cases hE : entryFor posMap out l with
      | none =>
          simp only [List.filterMap_cons, hE]
          exact ihr
      | some e =>
          simp only [List.filterMap_cons, hE, List.map_cons, List.nodup_cons]
          refine ⟨?_, ihr⟩
          intro hmem
          obtain ⟨e', he', hkey⟩ := List.mem_map.1 hmem
          obtain ⟨l', hl', hE'⟩ := List.mem_filterMap.1 he'
          obtain ⟨p, gt, info, hpl, hp, hlk, rfl⟩ := entryFor_inv hE
          obtain ⟨q, gt', info', hpl', hq, hlk', he'eq⟩ := entryFor_inv hE'
          have hrr : info'.rsid = info.rsid := by
            rw [he'eq] at hkey
            simpa using hkey
          have hmemP : (p, info) ∈ posMap := dictLookup_mem hlk
          have hmemQ : (q, info') ∈ posMap := dictLookup_mem hlk'
          have hposeq : info'.pos = info.pos :=
            hrsinj (q, info') hmemQ (p, info) hmemP hrr
          have hpq : q = p := by
            rw [← hcanon q info' hlk', hposeq, hcanon p info hlk]
          have h1 := honce p hp
          have hcEq : (l :: rest).countP (fun l₀ => linePos? l₀ == some p) =
              rest.countP (fun l₀ => linePos? l₀ == some p) + 1 := by
            rw [List.countP_cons]
            simp [linePos?_of_pos hpl]
          rw [hcEq] at h1
          have hpos : 0 < rest.countP (fun l₀ => linePos? l₀ == some p) :=
            List.countP_pos_iff.2 ⟨l', hl', by simp [linePos?_of_pos hpl', hpq]⟩
          omega

theorem specRawScore_perm (wmap : List (Str × SnpW)) {g₁ g₂ : List (Str × Option ℚ)}
    (h : g₁.Perm g₂) : specRawScore wmap g₁ = specRawScore wmap g₂ :=
  (h.filterMap _).sum_eq

/-- C9 (amended).  `score_individual` is order-independent provided each
indexed position occurs at most once among the stream's data lines and
the index's positions and rsids are duplicate-free: for every
permutation of the lines the two runs succeed and produce identical
ScoreReports — genotype dicts equal as dicts (a permutation of entry
lists with unique keys), equal raw scores and equal matched counts. -/
theorem score_individual_perm (weights : List SnpW) (lines₁ lines₂ : List Str)
    (hperm : lines₁.Perm lines₂)
    (hposnd : (weights.map SnpW.pos).Nodup)
    (hrsnd : (weights.map SnpW.rsid).Nodup)
    (hok : ∀ l ∈ lines₁, lineOk l)
    (honce : ∀ p ∈ weights.map SnpW.pos,
      lines₁.countP (fun l => linePos? l == some p) ≤ 1) :
    ∃ o₁ o₂, score_individual weights lines₁ = .ok o₁ ∧
      score_individual weights lines₂ = .ok o₂ ∧ outcomeEquiv o₁ o₂ := by
  have hpmeq : get_snp_position_map weights = weights.map (fun s => (s.pos, s)) :=
    get_snp_position_map_eq weights hposnd
  have hkeys : (get_snp_position_map weights).map Prod.fst = weights.map SnpW.pos := by
    rw [hpmeq, List.map_map]
    rfl
  have hded : ((get_snp_position_map weights).map Prod.fst).dedup =
      weights.map SnpW.pos := by
    rw [hkeys, List.Nodup.dedup hposnd]
  have hok₂ : ∀ l ∈ lines₂, lineOk l := fun l hl => hok l (hperm.mem_iff.2 hl)
  have hsub' : ∀ p ∈ ((get_snp_position_map weights).map Prod.fst).dedup,
      (dictLookup p (get_snp_position_map weights)).isSome := by
    intro p hp
    rw [dictLookup_isSome_iff, hkeys]
    rw [hded] at hp
    exact hp
  have honce₁ : ∀ p ∈ ((get_snp_position_map weights).map Prod.fst).dedup,
      lines₁.countP (fun l => linePos? l == some p) ≤ 1 := by
    rw [hded]
    exact honce
  have honce₂ : ∀ p ∈ ((get_snp_position_map weights).map Prod.fst).dedup,
      lines₂.countP (fun l => linePos? l == some p) ≤ 1 := by
    intro p hp
    rw [← hperm.countP_eq]
    exact honce₁ p hp
  obtain ⟨r₁, hr₁, hg₁⟩ := scanGo_characterize (get_snp_position_map weights) lines₁
    (((get_snp_position_map weights).map Prod.fst).dedup) [] 0 0 hok hsub' honce₁
  obtain ⟨r₂, hr₂, hg₂⟩ := scanGo_characterize (get_snp_position_map weights) lines₂
    (((get_snp_position_map weights).map Prod.fst).dedup) [] 0 0 hok₂ hsub' honce₂
  have hEperm : (lines₁.filterMap (entryFor (get_snp_position_map weights)
      (((get_snp_position_map weights).map Prod.fst).dedup))).Perm
      (lines₂.filterMap (entryFor (get_snp_position_map weights)
      (((get_snp_position_map weights).map Prod.fst).dedup))) :=
    hperm.filterMap _
  have hcanon : ∀ (p : ℤ) (info : SnpW),
      dictLookup p (get_snp_position_map weights) = some info → info.pos = p := by
    intro p info h
    rw [hpmeq] at h
    exact dictLookup_map_key SnpW.pos weights p info h
  have hrsinj : ∀ pr ∈ get_snp_position_map weights,
      ∀ pr' ∈ get_snp_position_map weights,
      pr.2.rsid = pr'.2.rsid → pr.2.pos = pr'.2.pos := by
    intro pr hpr pr' hpr' hrr
    rw [hpmeq] at hpr hpr'
    obtain ⟨s, hs, rfl⟩ := List.mem_map.1 hpr
    obtain ⟨s', hs', rfl⟩ := List.mem_map.1 hpr'
    have hss : s = s' := List.inj_on_of_nodup_map hrsnd hs hs' hrr
    rw [hss]
  have hnd₁ : ((lines₁.filterMap (entryFor (get_snp_position_map weights)
      (((get_snp_position_map weights).map Prod.fst).dedup))).map Prod.fst).Nodup :=
    entries_keys_nodup (get_snp_position_map weights) _ hcanon hrsinj lines₁ honce₁
  have hnd₂ : ((lines₂.filterMap (entryFor (get_snp_position_map weights)
      (((get_snp_position_map weights).map Prod.fst).dedup))).map Prod.fst).Nodup :=
    (hEperm.map Prod.fst).nodup_iff.1 hnd₁
  have hgt₁ : r₁.genotypes = lines₁.filterMap (entryFor (get_snp_position_map weights)
      (((get_snp_position_map weights).map Prod.fst).dedup)) := by
    rw [hg₁, foldl_dictInsert_pairs _ [] (fun e _ => rfl) hnd₁]
    rfl
  have hgt₂ : r₂.genotypes = lines₂.filterMap (entryFor (get_snp_position_map weights)
      (((get_snp_position_map weights).map Prod.fst).dedup)) := by
    rw [hg₂, foldl_dictInsert_pairs _ [] (fun e _ => rfl) hnd₂]
    rfl
  have hcovE : ∀ (lines : List Str) (p : Str × Option ℚ),
      p ∈ lines.filterMap (entryFor (get_snp_position_map weights)
        (((get_snp_position_map weights).map Prod.fst).dedup)) →
      (dictLookup p.1 (snp_weights_map weights)).isSome := by
    intro lines p hp
    obtain ⟨l, _, hEl⟩ := List.mem_filterMap.1 hp
    obtain ⟨q, gt, info, _, _, hlk, heq⟩ := entryFor_inv hEl
    have hmem : (q, info) ∈ get_snp_position_map weights := dictLookup_mem hlk
    rw [hpmeq] at hmem
    obtain ⟨s, hs, hse⟩ := List.mem_map.1 hmem
    have hsi : s = info := congrArg Prod.snd hse
    apply lookup_foldl_dictInsert_isSome SnpW.rsid weights []
    left
    have hfst : p.1 = info.rsid := by rw [heq]
    rw [hfst, ← hsi]
    exact List.mem_map_of_mem SnpW.rsid hs
  have hunfold : ∀ (lines : List Str) (r : ScanResult),
      scanGo (get_snp_position_map weights) lines
        (((get_snp_position_map weights).map Prod.fst).dedup) [] 0 0 = .ok r →
      score_individual weights lines =
        (if r.genotypes = [] then .ok .noMatchingVariants
         else compute_prs_raw (snp_weights_map weights) r.genotypes >>= fun raw =>
           .ok (.report r.genotypes raw r.genotypes.length)) := by
    intro lines r hscan
    simp only [score_individual]
    rw [hscan, except_bind_ok]
    rfl
  by_cases hnil : lines₁.filterMap (entryFor (get_snp_position_map weights)
      (((get_snp_position_map weights).map Prod.fst).dedup)) = []
  · have hnil₂ : lines₂.filterMap (entryFor (get_snp_position_map weights)
        (((get_snp_position_map weights).map Prod.fst).dedup)) = [] := by
      have h := hEperm
      rw [hnil] at h
      exact h.symm.eq_nil
    refine ⟨.noMatchingVariants, .noMatchingVariants, ?_, ?_, trivial⟩
    · rw [hunfold lines₁ r₁ hr₁, hgt₁, hnil]
      rfl
    · rw [hunfold lines₂ r₂ hr₂, hgt₂, hnil₂]
      rfl
  · have hnil₂ : lines₂.filterMap (entryFor (get_snp_position_map weights)
        (((get_snp_position_map weights).map Prod.fst).dedup)) ≠ [] := by
      intro h
      rw [h] at hEperm
      exact hnil hEperm.eq_nil
    refine ⟨.report
        (lines₁.filterMap (entryFor (get_snp_position_map weights)
          (((get_snp_position_map weights).map Prod.fst).dedup)))
        (specRawScore (snp_weights_map weights)
          (lines₁.filterMap (entryFor (get_snp_position_map weights)
            (((get_snp_position_map weights).map Prod.fst).dedup))))
        (lines₁.filterMap (entryFor (get_snp_position_map weights)
          (((get_snp_position_map weights).map Prod.fst).dedup))).length,
      .report
        (lines₂.filterMap (entryFor (get_snp_position_map weights)
          (((get_snp_position_map weights).map Prod.fst).dedup)))
        (specRawScore (snp_weights_map weights)
          (lines₂.filterMap (entryFor (get_snp_position_map weights)
            (((get_snp_position_map weights).map Prod.fst).dedup))))
        (lines₂.filterMap (entryFor (get_snp_position_map weights)
          (((get_snp_position_map weights).map Prod.fst).dedup))).length,
      ?_, ?_, ?_⟩
    · rw [hunfold lines₁ r₁ hr₁, hgt₁, if_neg hnil,
        compute_prs_raw_spec_aux _ _ (fun p hp _ => hcovE lines₁ p hp), except_bind_ok]
    · rw [hunfold lines₂ r₂ hr₂, hgt₂, if_neg hnil₂,
        compute_prs_raw_spec_aux _ _ (fun p hp _ => hcovE lines₂ p hp), except_bind_ok]
    · exact ⟨hEperm, specRawScore_perm _ hEperm, hEperm.length_eq⟩

/-- Index entry and duplicate-position stream lines for the C9
counterexample. -/
def snpOne : SnpW := ⟨str "rsA", 100, 1, str "T"⟩

def snpDupB : SnpW := ⟨str "rsA", 200, 1, str "T"⟩

def line100h : Str := str "1\t100\trs\tA\tG\t.\t.\t.\tGT\t0/0"

def line100v : Str := str "1\t100\trs\tA\tG\t.\t.\t.\tGT\t1/1"

/-- Counterexample for C9 as stated.  Line order does matter in general:
with two data lines at the same indexed position 100 carrying genotypes
0/0 and 1/1, the scan records whichever comes first (the position is
then discarded), so swapping the lines changes the ScoreReport
(raw score 0 versus 2).  Likewise, when two index positions share an
rsid, the dict entry is overwritten by the later match, so swapping the
lines changes the recorded dosage and the score. -/
theorem order_dependence_counterexample :
    ([line100h, line100v] : List Str).Perm [line100v, line100h] ∧
    score_individual [snpOne] [line100h, line100v] ≠
      score_individual [snpOne] [line100v, line100h] ∧
    score_individual [snpOne, snpDupB] [line100h, line200] ≠
      score_individual [snpOne, snpDupB] [line200, line100h] := by
  refine ⟨List.Perm.swap line100v line100h [], ?_, ?_⟩
  · with_unfolding_all decide
  · with_unfolding_all decide

/-- Witness for C9's amended statement: the two-line stream matching
rsA at 100 and rsB at 200 (each position once) scores identically in
both orders. -/
theorem score_individual_perm_witness :
    ∃ o₁ o₂, score_individual [snpA, snpB] [line100, line200] = .ok o₁ ∧
      score_individual [snpA, snpB] [line200, line100] = .ok o₂ ∧
      outcomeEquiv o₁ o₂ :=
  score_individual_perm [snpA, snpB] [line100, line200] [line200, line100]
    (List.Perm.swap line200 line100 [])
    (by decide) (by decide) (by decide) (by decide)



end Prism
